import Mathlib

/-!
# Verification of the OmniScript OSF converters core

Shallow embedding of the algorithmic core of the `omniscript-converters`
repository (PDF / DOCX / XLSX backends): the inline-formatting tokenizer,
the sparse-grid materializer, the formula address translator and the block
dispatchers, together with theorems settling the specification claims.

Modelling conventions:
* JavaScript strings are modelled as `String` / `List Char` (the repository
  only manipulates them as character sequences).
* JavaScript numbers appearing as cell values are modelled as `Int`
  (the claims under scrutiny only exercise integral values); the numbers
  produced by `Number(...)` on key fragments are modelled by the lattice
  `JsMax` (`NaN`, `±Infinity`, or a finite value represented by its floor —
  the only part the converters can observe, see `JsMax`).
* `undefined` is modelled with `Option.none`.
-/

namespace OSF

/-- `\d` of the JavaScript regexes: an ASCII decimal digit. -/
def isDigitCh (c : Char) : Bool := '0' ≤ c && c ≤ '9'

/-- `\s` of the JavaScript regexes, restricted to the ASCII whitespace
characters (space, tab, LF, VT, FF, CR).  The Unicode space classes also
matched by `\s` are not modelled; no claim exercises them. -/
def isJsSpaceCh (c : Char) : Bool :=
  c = ' ' || c = '\t' || c = '\n' || c = '\x0b' || c = '\x0c' || c = '\r'

/-- Numeric value of a digit character. -/
def digitVal (c : Char) : Nat := c.toNat - 48

/-- The digit character for `n < 10`. -/
def digitCh (n : Nat) : Char := Char.ofNat (48 + n)

/-- Value of a string of decimal digits, most significant first.
Models JavaScript `parseInt` on an all-digit string (the only way the
repository calls it: on a regex capture group matching `\d+`). -/
def parseIntDigits (ds : List Char) : Nat :=
  ds.foldl (fun acc c => acc * 10 + digitVal c) 0

/-- Fuel-driven worker for decimal rendering of a natural number
(the fuel is only a termination device; `natDec` supplies enough). -/
def natDecAux : Nat → Nat → List Char
  | 0, _ => []
  | f + 1, n => if n < 10 then [digitCh n] else natDecAux f (n / 10) ++ [digitCh (n % 10)]

/-- Decimal rendering of a natural number; models the number→string
conversion performed by JavaScript template literals and `String(...)`. -/
def natDec (n : Nat) : List Char := natDecAux (n + 1) n

/-- Decimal rendering of an integer (JavaScript `String(...)` on numbers;
the claims only exercise integral values). -/
def intDec (n : Int) : List Char :=
  if n < 0 then '-' :: natDec (-n).toNat else natDec n.toNat

/-! ## `XLSXConverter.numberToColumnLetter` (src/src/xlsx.ts lines 411-419)

```ts
private numberToColumnLetter(num: number): string {
  let result = '';
  while (num > 0) {
    num--;
    result = String.fromCharCode(65 + (num % 26)) + result;
    num = Math.floor(num / 26);
  }
  return result;
}
```
The loop is rendered as a recursion on the shrinking `num`; a fuel
parameter (≥ the current `num`, so never exhausted) drives termination. -/

/-- Fuel-driven worker for `numberToColumnLetter`.  One unfolding is one
iteration of the source's `while (num > 0)` loop: it emits
`String.fromCharCode(65 + ((num-1) % 26))` as the least significant letter
and continues with `Math.floor((num-1) / 26)`. -/
def colLetterAux : Nat → Int → List Char
  | 0, _ => []
  | f + 1, n =>
    if n ≤ 0 then []
    else colLetterAux f ((n - 1) / 26) ++ [Char.ofNat (65 + ((n - 1) % 26).toNat)]

/-- `XLSXConverter.numberToColumnLetter`: bijective base-26 column-letter
encoding; returns `""` for every `num ≤ 0` (the loop body never runs). -/
def numberToColumnLetter (n : Int) : String := ⟨colLetterAux n.toNat n⟩

/-- Value of a column-letter string: the inverse reading of the bijective
base-26 encoding (`"A" = 1`, …, `"Z" = 26`, `"AA" = 27`, …).  Reference
function used to state that the encoding is a bijection. -/
def colLetterVal (cs : List Char) : Nat :=
  cs.foldl (fun acc c => acc * 26 + (c.toNat - 64)) 0

/-! ## `XLSXConverter.convertToExcelFormula` (src/src/xlsx.ts lines 400-409)

```ts
return formula.replace(/\(\s*(\d+),\s*(\d+)\s*\)/g, (match, row, col) => {
  const colLetter = this.numberToColumnLetter(parseInt(col));
  return `${colLetter}${row}`;
});
```
`String.replace` with a global regex substitutes every leftmost,
non-overlapping match, scanning left to right.  The regex is deterministic
(`\s`, `\d`, and the literal characters are pairwise disjoint), so it is
rendered as a maximal-munch scanner. -/

/-- Attempt to match the regex `\(\s*(\d+),\s*(\d+)\s*\)` **at the head** of
the character list.  On success returns `(rowDigits, colDigits, rest)` where
`rest` is everything after the match. -/
def tryCoordAt : List Char → Option (List Char × List Char × List Char)
  | [] => none
  | ch :: r0 =>
    if ch = '(' then
      let r1 := r0.dropWhile isJsSpaceCh
      let row := r1.takeWhile isDigitCh
      let r2 := r1.dropWhile isDigitCh
      if row = [] then none
      else
        match r2 with
        | ',' :: r3 =>
          let r4 := r3.dropWhile isJsSpaceCh
          let col := r4.takeWhile isDigitCh
          let r5 := r4.dropWhile isDigitCh
          if col = [] then none
          else
            match r5.dropWhile isJsSpaceCh with
            | ')' :: r7 => some (row, col, r7)
            | _ => none
        | _ => none
    else none

/-- Fuel-driven worker for the global regex replacement: at each position
try the coordinate pattern; on a match emit the column letters of
`parseInt(col)` followed by the row digits verbatim and continue after the
match, otherwise copy one character. -/
def convFormulaAux : Nat → List Char → List Char
  | 0, _ => []
  | _, [] => []
  | f + 1, ch :: rest =>
    match tryCoordAt (ch :: rest) with
    | some (row, col, rem) =>
      (numberToColumnLetter (parseIntDigits col)).data ++ row ++ convFormulaAux f rem
    | none => ch :: convFormulaAux f rest

/-- `XLSXConverter.convertToExcelFormula` on character lists. -/
def convertToExcelFormulaChars (cs : List Char) : List Char :=
  convFormulaAux cs.length cs

/-- `XLSXConverter.convertToExcelFormula`. -/
def convertToExcelFormula (s : String) : String :=
  ⟨convertToExcelFormulaChars s.data⟩

/-- `excelFormula.startsWith('=')`. -/
def startsWithEq : List Char → Bool
  | c :: _ => c = '='
  | [] => false

/-- The expression-side work of `XLSXConverter.applyFormulas`
(src/src/xlsx.ts lines 272-278): prepend `=` when the expression does not
already start with it, then run `convertToExcelFormula`. -/
def applyFormulaExprChars (e : List Char) : List Char :=
  convertToExcelFormulaChars (if startsWithEq e then e else '=' :: e)

/-- `applyFormulas`' translation of one formula expression string. -/
def applyFormulaExpr (s : String) : String := ⟨applyFormulaExprChars s.data⟩

/-! ## `DOCXConverter.parseInlineFormatting` (src/unnamed/part_001 lines 350-408)

The tokenizer scans the text once per pattern
(`/\*\*(.+?)\*\*/g`, `/\*(.+?)\*/g`, `` /`(.+?)`/g ``, in declaration
order), collects all matches as `{index, length, text, format}` records,
sorts them by `index` (JavaScript `Array.prototype.sort` is stable, and the
comparator is `a.index - b.index`), and walks the sorted list building
`TextRun`s. -/

/-- A text run of the `docx` library, restricted to the fields the
repository sets on runs it builds from `parseInlineFormatting` patterns:
`text`, `bold`, `italics`, `font`.  (Purely visual fields such as `size`
and `color`, set only on headings/titles, are irrelevant to every claim and
are omitted.) -/
structure TextRun where
  text : String
  bold : Bool := false
  italics : Bool := false
  font : Option String := none
deriving DecidableEq, Repr

/-- One entry of the tokenizer's `matches` array.  `rule` records which
pattern produced the match (0 = bold, 1 = italic, 2 = code, the declaration
order of the `patterns` array); the source stores the pattern's `format`
object, which is a function of `rule` (see `matchRun`). -/
structure FmtMatch where
  index : Nat
  length : Nat
  text : List Char
  rule : Nat
deriving DecidableEq, Repr

/-- The styled `TextRun` built from a match:
`new TextRun({ text: match.text, ...match.format })`. -/
def matchRun (m : FmtMatch) : TextRun :=
  match m.rule with
  | 0 => { text := ⟨m.text⟩, bold := true }
  | 1 => { text := ⟨m.text⟩, italics := true }
  | _ => { text := ⟨m.text⟩, font := some "Courier New" }

/-- Lazy inner match for a paired-delimiter pattern `open (.+?) close`:
having already consumed the opening delimiter and at least one inner
character (accumulated in `acc`, reversed), stop as soon as the closing
delimiter follows, otherwise extend the inner text by one more character
(`.` does not match a newline). -/
def lazyInnerAux (close : List Char) : List Char → List Char → Option (List Char × List Char)
  | acc, [] => if close.isPrefixOf [] then some (acc.reverse, ([] : List Char)) else none
  | acc, c :: rest' =>
    if close.isPrefixOf (c :: rest') then some (acc.reverse, (c :: rest').drop close.length)
    else if c = '\n' then none
    else lazyInnerAux close (c :: acc) rest'

/-- Match `open (.+?) close` at the head of `cs`: returns
`(innerText, restAfterClose)`. -/
def tryDelimAt (delimOpen delimClose cs : List Char) : Option (List Char × List Char) :=
  if delimOpen.isPrefixOf cs then
    match cs.drop delimOpen.length with
    | [] => none
    | c :: rest => if c = '\n' then none else lazyInnerAux delimClose [c] rest
  else none

/-- The `while ((match = pattern.regex.exec(text)) !== null)` loop: find the
successive leftmost non-overlapping matches of one pattern, starting each
search at the end of the previous match (`lastIndex`).  `i` is the current
position, the fuel is only a termination device. -/
def scanPatternAux (delimOpen delimClose cs : List Char) : Nat → Nat → List FmtMatch
  | 0, _ => []
  | f + 1, i =>
    match tryDelimAt delimOpen delimClose (cs.drop i) with
    | some (inner, rest) =>
      let len := cs.length - i - rest.length
      { index := i, length := len, text := inner, rule := 0 } ::
        scanPatternAux delimOpen delimClose cs f (i + len)
    | none =>
      if i < cs.length then scanPatternAux delimOpen delimClose cs f (i + 1) else []

/-- All matches of one pattern over `cs` (rule tag filled in by the caller). -/
def scanPattern (delimOpen delimClose cs : List Char) : List FmtMatch :=
  scanPatternAux delimOpen delimClose cs (cs.length + 1) 0

/-- The `matches` array before sorting: all matches of all three patterns,
grouped in pattern declaration order (bold, italic, code), each tagged with
its rule number. -/
def collectMatches (cs : List Char) : List FmtMatch :=
  (scanPattern ['*', '*'] ['*', '*'] cs).map (fun m => { m with rule := 0 }) ++
  (scanPattern ['*'] ['*'] cs).map (fun m => { m with rule := 1 }) ++
  (scanPattern ['`'] ['`'] cs).map (fun m => { m with rule := 2 })

/-- Stable insertion into a list sorted by `index`: the new element goes in
front of the first element whose `index` is not smaller.  Together with
`sortMatches` this renders `matches.sort((a, b) => a.index - b.index)`
(ECMAScript `Array.prototype.sort` is stable). -/
def insertMatch (m : FmtMatch) : List FmtMatch → List FmtMatch
  | [] => [m]
  | x :: xs => if x.index < m.index then x :: insertMatch m xs else m :: x :: xs

/-- Stable sort of the match list by `index` ascending. -/
def sortMatches : List FmtMatch → List FmtMatch
  | [] => []
  | x :: xs => insertMatch x (sortMatches xs)

/-- The run-building walk over the sorted matches (`for (const match of
matches)` with the `currentIndex` cursor): emit a plain run for the text
between the cursor and the next match when that gap is positive, then the
match's styled run, then move the cursor past the match. -/
def buildRuns (cs : List Char) : List FmtMatch → Nat → List TextRun
  | [], cur =>
    -- trailing plain text after the last match
    if cur < cs.length then
      let remaining := cs.drop cur
      if remaining = [] then [] else [{ text := ⟨remaining⟩ }]
    else []
  | m :: ms, cur =>
    (if m.index > cur then
      let plain := (cs.drop cur).take (m.index - cur)
      if plain = [] then [] else [{ text := (⟨plain⟩ : String) }]
     else []) ++
    matchRun m :: buildRuns cs ms (m.index + m.length)

/-- `DOCXConverter.parseInlineFormatting`: tokenize inline `**bold**`,
`*italic*` and `` `code` `` markers into an ordered run list; when nothing
was emitted, fall back to one run holding the whole text. -/
def parseInlineFormatting (text : String) : List TextRun :=
  let runs := buildRuns text.data (sortMatches (collectMatches text.data)) 0
  if runs = [] then [{ text := text }] else runs

/-- Concatenation of the `text` fields of a run list, in order. -/
def runsText (rs : List TextRun) : String :=
  rs.foldl (fun acc r => acc ++ r.text) ""

/-! ## The sheet data model and the sparse-grid materializer

A sheet's `data` is a JavaScript object mapping `"row,col"` strings to
scalar values.  It is modelled as an association list in insertion order
(which is `Object.keys` order for such keys), with `String`-typed keys. -/

/-- A scalar cell value: string, number or boolean. -/
inductive CellScalar where
  | str (s : String)
  | num (n : Int)
  | boolv (b : Bool)
deriving DecidableEq, Repr

/-- JavaScript `String(value)` on a cell scalar. -/
def jsStringOfScalar : CellScalar → String
  | .str s => s
  | .num n => ⟨intDec n⟩
  | .boolv b => if b then "true" else "false"

/-- JavaScript truthiness of a cell scalar (`0`, `false` and `""` are
falsy). -/
def jsTruthy : CellScalar → Bool
  | .str s => s ≠ ""
  | .num n => n ≠ 0
  | .boolv b => b

/-- The sparse cell map `sheet.data`. -/
abbrev CellMap := List (String × CellScalar)

/-- Object property lookup `sheet.data[key]`. -/
def cellLookup (data : CellMap) (k : String) : Option CellScalar :=
  (List.find? (fun kv => kv.1 = k) data).map (·.2)

/-- JavaScript `String.prototype.split(sep)` for a single-character
separator, on character lists. -/
def splitOnCh (sep : Char) : List Char → List (List Char)
  | [] => [[]]
  | c :: rest =>
    if c = sep then [] :: splitOnCh sep rest
    else
      match splitOnCh sep rest with
      | p :: ps => (c :: p) :: ps
      | [] => [[c]]

/-- JavaScript `String.prototype.split(',')` on character lists. -/
def splitOnComma : List Char → List (List Char) := splitOnCh ','

/-- Strip leading and trailing JavaScript whitespace. -/
def trimChars (cs : List Char) : List Char :=
  ((cs.dropWhile isJsSpaceCh).reverse.dropWhile isJsSpaceCh).reverse

/-- A JavaScript number as observed by the converters, which is also the
type of a `Math.max(...)` result: `NaN`, `+Infinity`, `-Infinity` (also
`Math.max()` of an empty argument list), or a finite value represented by
its floor.  The parsed key components feed exclusively into `Math.max` and
from there into `for (let r = 1; r <= bound; r++)` loop bounds stepped over
integers, so the floor is the only observable part of a finite value, and
taking floors commutes with `max` — representing each finite value by its
exact integer floor is faithful.  IEEE-754 rounding at extreme magnitudes
(overflow to `Infinity` beyond ~1.8e308, rounding of integers beyond 2^53)
is not modelled: values are kept exact. -/
inductive JsMax where
  | ninf
  | nan
  | pinf
  | fin (n : Int)
deriving DecidableEq, Repr

/-- A hexadecimal digit (`[0-9a-fA-F]`). -/
def isHexDigitCh (c : Char) : Bool :=
  isDigitCh c || ('a' ≤ c && c ≤ 'f') || ('A' ≤ c && c ≤ 'F')

/-- Numeric value of a hexadecimal digit. -/
def hexVal (c : Char) : Nat :=
  if isDigitCh c then digitVal c
  else if 'a' ≤ c && c ≤ 'f' then c.toNat - 87
  else c.toNat - 55

/-- Value of a digit string in base `b` with digit values given by `v`. -/
def parseRadixDigits (b : Nat) (v : Char → Nat) (ds : List Char) : Nat :=
  ds.foldl (fun acc c => acc * b + v c) 0

/-- The exponent part of a decimal literal (everything after the `e`/`E`):
an optionally-signed non-empty digit string; `none` when malformed. -/
def parseExpPart : List Char → Option Int
  | [] => none
  | '+' :: ds => if ds ≠ [] ∧ ds.all isDigitCh then some (parseIntDigits ds : Int) else none
  | '-' :: ds => if ds ≠ [] ∧ ds.all isDigitCh then some (-(parseIntDigits ds : Int)) else none
  | ds => if ds.all isDigitCh then some (parseIntDigits ds : Int) else none

/-- Third stage of the decimal-literal grammar: `I` are the integer digits,
`F` the fractional digits, `r2` the remainder, which must be empty or an
exponent part.  Returns `(N, s, k)` with `N` the value of the concatenated
mantissa digits, `s` the number of fractional digits and `k` the exponent;
at least one mantissa digit is required. -/
def jsDecParse3 (I F r2 : List Char) : Option (Nat × Nat × Int) :=
  if I = [] ∧ F = [] then none
  else
    match r2 with
    | [] => some (parseIntDigits (I ++ F), F.length, 0)
    | c :: r3 =>
      if c = 'e' ∨ c = 'E' then
        match parseExpPart r3 with
        | some k => some (parseIntDigits (I ++ F), F.length, k)
        | none => none
      else none

/-- Second stage: after the integer digits `I`, an optional `.` introduces
the fractional digits. -/
def jsDecParse2 (I r1 : List Char) : Option (Nat × Nat × Int) :=
  match r1 with
  | '.' :: r => jsDecParse3 I (r.takeWhile isDigitCh) (r.dropWhile isDigitCh)
  | _ => jsDecParse3 I [] r1

/-- Decompose an unsigned decimal literal `digits [. digits] [e/E exp]`
(one of the two digit groups may be absent) into mantissa value, fractional
length and exponent. -/
def jsDecParse (t : List Char) : Option (Nat × Nat × Int) :=
  jsDecParse2 (t.takeWhile isDigitCh) (t.dropWhile isDigitCh)

/-- Floor of `(-1)^neg · N · 10^(k-s)`, the exact value of a signed decimal
literal with mantissa value `N`, `s` fractional digits and exponent `k`
(`Int.fdiv` is floor division). -/
def decFloor (neg : Bool) (N s : Nat) (k : Int) : Int :=
  let signedN : Int := if neg then -(N : Int) else (N : Int)
  if (s : Int) ≤ k then signedN * 10 ^ (k - s).toNat
  else Int.fdiv signedN (10 ^ ((s : Int) - k).toNat)

/-- An unsigned `0x…` / `0o…` / `0b…` radix literal (`Number()` accepts
these only without a sign); `none` when `t` is not of that shape, in which
case the decimal grammar gets its try. -/
def jsRadixLit : List Char → Option Int
  | c0 :: c1 :: ds =>
    if c0 = '0' then
      if c1 = 'x' ∨ c1 = 'X' then
        if ds ≠ [] ∧ ds.all isHexDigitCh then
          some (parseRadixDigits 16 hexVal ds : Int)
        else none
      else if c1 = 'o' ∨ c1 = 'O' then
        if ds ≠ [] ∧ ds.all (fun d => '0' ≤ d && d ≤ '7') then
          some (parseRadixDigits 8 digitVal ds : Int)
        else none
      else if c1 = 'b' ∨ c1 = 'B' then
        if ds ≠ [] ∧ ds.all (fun d => d == '0' || d == '1') then
          some (parseRadixDigits 2 digitVal ds : Int)
        else none
      else none
    else none
  | _ => none

/-- A trimmed, non-empty `Number()` argument after stripping an optional
sign: `Infinity` gives the signed infinity, a decimal literal gives (the
floor of) its value, anything else is `NaN`. -/
def jsDecOrInf (neg : Bool) (t : List Char) : JsMax :=
  if t = ['I', 'n', 'f', 'i', 'n', 'i', 't', 'y'] then
    (if neg then .ninf else .pinf)
  else
    match jsDecParse t with
    | some (N, s, k) => .fin (decFloor neg N s k)
    | none => .nan

/-- JavaScript `Number(string)` up to floor: whitespace is trimmed, the
empty string is `0`, `[sign] Infinity` gives `±Infinity`, an unsigned
`0x`/`0o`/`0b` radix literal gives its value, a signed decimal literal
(`digits [. digits] [e/E [sign] digits]`, or starting at the `.`) gives the
floor of its value, and every other shape is `NaN`.  (The floor is the only
observable part of a finite value — see `JsMax`.)  The Unicode-only
whitespace also trimmed by `Number()` is not modelled; no claim exercises
it. -/
def jsNumber (cs : List Char) : JsMax :=
  match trimChars cs with
  | [] => .fin 0
  | c :: rest =>
    if c = '-' then jsDecOrInf true rest
    else if c = '+' then jsDecOrInf false rest
    else
      match jsRadixLit (c :: rest) with
      | some v => .fin v
      | none => jsDecOrInf false (c :: rest)

/-- `k.split(',').map(Number)` followed by the `c[0]` / `c[1]` accesses:
the first two components of the parsed key, `.nan` standing for `NaN`
(including the `undefined` produced by `c[1]` when the key has no comma,
which `Math.max` then coerces to `NaN`). -/
def parsedRC (k : String) : JsMax × JsMax :=
  let parts := splitOnComma k.data
  (match parts with
   | p :: _ => jsNumber p
   | [] => .nan,
   match parts with
   | _ :: q :: _ => jsNumber q
   | _ => .nan)

/-- One step of `Math.max` accumulation: `NaN` absorbs everything,
`+Infinity` dominates everything but `NaN`, `-Infinity` is the identity. -/
def jsMaxStep (acc x : JsMax) : JsMax :=
  match x, acc with
  | .nan, _ => .nan
  | _, .nan => .nan
  | .pinf, _ => .pinf
  | _, .pinf => .pinf
  | .fin v, .ninf => .fin v
  | .fin v, .fin w => .fin (max v w)
  | .ninf, a => a

/-- `Math.max(...xs)` over a list of JavaScript numbers. -/
def jsMaxList (xs : List JsMax) : JsMax := xs.foldl jsMaxStep .ninf

/-- `const maxRow = Math.max(...coords.map(c => c[0]))`. -/
def maxRowOf (data : CellMap) : JsMax :=
  jsMaxList (data.map (fun kv => (parsedRC kv.1).1))

/-- `const maxCol = Math.max(...coords.map(c => c[1]))`. -/
def maxColOf (data : CellMap) : JsMax :=
  jsMaxList (data.map (fun kv => (parsedRC kv.1).2))

/-- The indices visited by `for (let r = 1; r <= bound; r++)`: `1..⌊bound⌋`
when the bound is the finite number with floor `n`, nothing when it is
`NaN` or `-Infinity` (the comparison `1 <= bound` is then false).  A
`+Infinity` bound — reachable only through a literal `Infinity` key
component — makes the source loop diverge; the model returns `[]` there,
which makes the bounds hypotheses of the grid theorems empty, and no claim
exercises that case. -/
def loopIdxs : JsMax → List Nat
  | .fin n => (List.range n.toNat).map (· + 1)
  | _ => []

/-- Number of data rows the materializer walks (`maxRow` clamped to 0 when
the cell map is empty or poisoned). -/
def rowCountOf (data : CellMap) : Nat := (loopIdxs (maxRowOf data)).length

/-- Number of data columns the materializer walks. -/
def colCountOf (data : CellMap) : Nat := (loopIdxs (maxColOf data)).length

/-- The `${r},${c}` template literal building a lookup key. -/
def keyOf (r c : Nat) : String := ⟨natDec r ++ ',' :: natDec c⟩

/-- `this.escapeHtml(text)` (src/unnamed/part_000 lines 209-217): the `div`
object literal has an empty (falsy) `innerHTML`, so the function always
falls through to the chained replacements `&`→`&amp;`, `<`→`&lt;`,
`>`→`&gt;`, `"`→`&quot;`, `'`→`&#39;`.  Because `&` is replaced first and
the later replacement texts contain no `<ch>` that an earlier pass rewrote,
the chain is equivalent to this single character-wise pass. -/
def escapeHtmlChars (cs : List Char) : List Char :=
  cs.foldr (fun c acc =>
    if c = '&' then '&' :: 'a' :: 'm' :: 'p' :: ';' :: acc
    else if c = '<' then '&' :: 'l' :: 't' :: ';' :: acc
    else if c = '>' then '&' :: 'g' :: 't' :: ';' :: acc
    else if c = '"' then '&' :: 'q' :: 'u' :: 'o' :: 't' :: ';' :: acc
    else if c = '\'' then '&' :: '#' :: '3' :: '9' :: ';' :: acc
    else c :: acc) []

/-- `escapeHtml` on strings. -/
def escapeHtml (s : String) : String := ⟨escapeHtmlChars s.data⟩

/-- `sheet.data[key] || ''`: the stored value when present **and truthy**,
the empty string otherwise (shared by the PDF and DOCX sheet renderers). -/
def cellOrEmpty (v : Option CellScalar) : CellScalar :=
  match v with
  | some x => if jsTruthy x then x else .str ""
  | none => .str ""

/-- The `<td>` content the PDF renderer emits for grid position `(r, c)`:
`escapeHtml(String(sheet.data[key] || ''))`
(src/unnamed/part_000 lines 186-189). -/
def pdfCellText (data : CellMap) (r c : Nat) : String :=
  escapeHtml (jsStringOfScalar (cellOrEmpty (cellLookup data (keyOf r c))))

/-- The dense grid of `<td>` contents materialized by
`PDFConverter.renderSheetBlock`'s data loops
(src/unnamed/part_000 lines 179-194). -/
def pdfSheetRows (data : CellMap) : List (List String) :=
  (loopIdxs (maxRowOf data)).map (fun r =>
    (loopIdxs (maxColOf data)).map (fun c => pdfCellText data r c))

/-- The text the DOCX renderer puts in the table cell for `(r, c)`:
`String(sheet.data[key] || '')` (src/unnamed/part_001 lines 313-314). -/
def docxCellText (data : CellMap) (r c : Nat) : String :=
  jsStringOfScalar (cellOrEmpty (cellLookup data (keyOf r c)))

/-- The dense grid of cell texts materialized by
`DOCXConverter.renderSheetBlock`'s data loops
(src/unnamed/part_001 lines 310-326). -/
def docxSheetRows (data : CellMap) : List (List String) :=
  (loopIdxs (maxRowOf data)).map (fun r =>
    (loopIdxs (maxColOf data)).map (fun c => docxCellText data r c))

/-! ## `XLSXConverter.populateSheetData` (src/src/xlsx.ts lines 228-264)

The XLSX path writes into an ExcelJS worksheet.  A worksheet is modelled as
the ordered log of its cell writes; a cell never written stays empty. -/

/-- A value written into a worksheet cell: numbers and booleans keep their
type, everything else is written as `String(value)`, and formula objects
carry the translated formula text. -/
inductive XlsxVal where
  | num (n : Int)
  | boolv (b : Bool)
  | str (s : String)
  | formula (f : String)
deriving DecidableEq, Repr

/-- One `worksheet.getCell(row, col).value = …` write. -/
structure CellWrite where
  row : Nat
  col : Nat
  val : XlsxVal
deriving DecidableEq, Repr

/-- The typed value `populateSheetData` writes for a stored scalar. -/
def xlsxValOf : CellScalar → XlsxVal
  | .num n => .num n
  | .boolv b => .boolv b
  | .str s => .str s

/-- `XLSXConverter.populateSheetData`: for every `(r, c)` of the inferred
bounding box whose key is present, write the value (type-preserved) at
worksheet position `(startRow + r - 1, c)`; absent keys produce no write. -/
def populateSheetData (data : CellMap) (startRow : Nat) : List CellWrite :=
  ((loopIdxs (maxRowOf data)).map (fun r =>
    (loopIdxs (maxColOf data)).filterMap (fun c =>
      match cellLookup data (keyOf r c) with
      | some v => some ⟨startRow + r - 1, c, xlsxValOf v⟩
      | none => none))).flatten

/-- `XLSXConverter.applyFormulas` (src/src/xlsx.ts lines 266-290): one
write per formula entry, at the entry's cell, holding the translated
expression.  (Formula cells in the document are coordinate pairs; they are
modelled as naturals.) -/
def applyFormulas (formulas : List ((Nat × Nat) × String)) : List CellWrite :=
  formulas.map (fun f => ⟨f.1.1, f.1.2, .formula (applyFormulaExpr f.2)⟩)

/-! ## The block model

`omniscript-parser` delivers a document as an ordered block sequence; each
converter dispatches on `block.type`.  Block kinds other than
`meta` / `doc` / `slide` / `sheet` are represented by the `other`
constructor, carrying the unknown tag. -/

/-- The `props` of a meta block.  The converters only read
`title` / `author` / `date` / `theme` and immediately stringify them, so the
props are modelled as optional strings (`none` = property absent). -/
structure MetaProps where
  title : Option String := none
  author : Option String := none
  date : Option String := none
  theme : Option String := none
deriving DecidableEq, Repr

/-- Inline content runs fed to `extractText` (a closed variant set in the
parser: plain strings, links, images, and other objects probed for a
`text` field). -/
inductive InlineRun where
  | rstr (s : String)
  | rlink (text : String)
  | rimage (alt : Option String)
  | rother (text : Option String)
deriving DecidableEq, Repr

/-- `this.extractText(run)` (identical in all three converters). -/
def extractText : InlineRun → String
  | .rstr s => s
  | .rlink t => t
  | .rimage alt => alt.getD ""
  | .rother t => t.getD ""

/-- `item.content.map(this.extractText).join('')`. -/
def inlineText (rs : List InlineRun) : String := String.join (rs.map extractText)

/-- Nested content blocks of a slide; kinds other than `unordered_list` and
`paragraph` are skipped by every renderer. -/
inductive SlideContent where
  | ulist (items : List (List InlineRun))
  | slidePara (runs : List InlineRun)
  | otherContent (kind : String)
deriving DecidableEq, Repr

/-- `sheet.cols`: either already an array of labels or a raw string that
the converters normalize (`String(cols).replace(/[[\]]/g, '').split(',')`
with trimming). -/
inductive ColsVal where
  | arr (labels : List String)
  | raw (s : String)
deriving DecidableEq, Repr

/-- The normalized header label list (identical in all three converters). -/
def colsList : ColsVal → List String
  | .arr l => l
  | .raw s =>
    (splitOnComma (s.data.filter (fun c => ¬(c = '[' ∨ c = ']')))).map
      (fun cs => (⟨trimChars cs⟩ : String))

/-- Truthiness of `sheet.cols` (`if (sheet.cols)`): an array is always
truthy, a raw string iff non-empty, an absent field is falsy. -/
def colsTruthy : Option ColsVal → Bool
  | some (.arr _) => true
  | some (.raw s) => s ≠ ""
  | none => false

/-- A sheet block. -/
structure SheetBlock where
  name : Option String := none
  cols : Option ColsVal := none
  data : Option CellMap := none
  formulas : Option (List ((Nat × Nat) × String)) := none
deriving DecidableEq, Repr

/-- A parsed document block. -/
inductive Block where
  | meta (props : MetaProps)
  | doc (content : Option String)
  | slide (title : Option String) (content : Option (List SlideContent))
  | sheet (sb : SheetBlock)
  | other (kind : String)
deriving DecidableEq, Repr

/-- The `ConverterOptions` fields the embedded logic reads (`pageSize`,
`orientation`, `margins` and `customStyles` only parameterize the external
backends and are omitted). -/
structure ConverterOptions where
  theme : Option String := none
  includeMetadata : Option Bool := none
deriving DecidableEq, Repr

/-- Truthiness of an optional string property. -/
def strTruthy : Option String → Bool
  | some s => s ≠ ""
  | none => false

/-- Truthiness of an optional boolean option (`undefined` and `false` are
falsy). -/
def boolTruthy : Option Bool → Bool := fun o => o.getD false

/-! ## `PDFConverter` rendering (src/unnamed/part_000)

`generateHTML` wraps a constant, theme-dependent header and a constant
footer around the per-block dispatch loop (lines 63-78).  The header (CSS
text) and footer do not depend on the blocks, so the embedding covers the
loop's output, `pdfGenerateHTMLBody`. -/

/-- `PDFConverter.renderMetaBlock` (lines 84-103). -/
def pdfRenderMetaBlock (props : MetaProps) (opts : ConverterOptions) : String :=
  if ¬ boolTruthy opts.includeMetadata then "" else
  "<div class=\"meta-block\">" ++
  (if strTruthy props.title then
    "<h1 class=\"document-title\">" ++ escapeHtml (props.title.getD "") ++ "</h1>" else "") ++
  (if strTruthy props.author then
    "<p class=\"document-author\">By: " ++ escapeHtml (props.author.getD "") ++ "</p>" else "") ++
  (if strTruthy props.date then
    "<p class=\"document-date\">Date: " ++ escapeHtml (props.date.getD "") ++ "</p>" else "") ++
  "</div>"

/-- One-line global replacement of `/^<marker>(.+)$/` (the `gm` heading
rules of `renderDocBlock`): a line consisting of the marker followed by at
least one character is wrapped in the tag pair. -/
def mdHeadLine (marker tagO tagC line : List Char) : List Char :=
  if marker.isPrefixOf line ∧ line.drop marker.length ≠ [] then
    tagO ++ line.drop marker.length ++ tagC
  else line

/-- Apply one heading rule to every line of the text. -/
def mdHeadRule (marker tagO tagC : List Char) (cs : List Char) : List Char :=
  (((splitOnCh '\n' cs).map (mdHeadLine marker tagO tagC)).intersperse ['\n']).flatten

/-- Fuel-driven global replacement of a paired-delimiter pattern
`open(.+?)close` by `tagO ++ inner ++ tagC` (the bold/italic/code rules of
`renderDocBlock`), scanning left to right over non-overlapping matches. -/
def replaceDelimAux (dOpen dClose tagO tagC : List Char) : Nat → List Char → List Char
  | 0, _ => []
  | _, [] => []
  | f + 1, c :: rest =>
    match tryDelimAt dOpen dClose (c :: rest) with
    | some (inner, rem) => tagO ++ inner ++ tagC ++ replaceDelimAux dOpen dClose tagO tagC f rem
    | none => c :: replaceDelimAux dOpen dClose tagO tagC f rest

/-- Global paired-delimiter replacement. -/
def replaceDelim (dOpen dClose tagO tagC cs : List Char) : List Char :=
  replaceDelimAux dOpen dClose tagO tagC cs.length cs

/-- Global replacement of `/\n\n/g` by `</p><p>` (leftmost,
non-overlapping). -/
def replaceDoubleNl : List Char → List Char
  | '\n' :: '\n' :: rest => "</p><p>".data ++ replaceDoubleNl rest
  | c :: rest => c :: replaceDoubleNl rest
  | [] => []

/-- Global replacement of `/\n/g` by `<br>`. -/
def replaceNl (cs : List Char) : List Char :=
  cs.foldr (fun c acc => if c = '\n' then "<br>".data ++ acc else c :: acc) []

/-- `PDFConverter.renderDocBlock` (lines 105-120): the chained global
regex replacements, in source order, wrapped in the doc-block container. -/
def pdfRenderDocBlock (content : Option String) : String :=
  let h := (content.getD "").data
  let h := mdHeadRule ['#', ' '] "<h1>".data "</h1>".data h
  let h := mdHeadRule ['#', '#', ' '] "<h2>".data "</h2>".data h
  let h := mdHeadRule ['#', '#', '#', ' '] "<h3>".data "</h3>".data h
  let h := replaceDelim ['*', '*'] ['*', '*'] "<strong>".data "</strong>".data h
  let h := replaceDelim ['*'] ['*'] "<em>".data "</em>".data h
  let h := replaceDelim ['`'] ['`'] "<code>".data "</code>".data h
  let h := replaceDoubleNl h
  let h := replaceNl h
  "<div class=\"doc-block\"><p>" ++ (⟨h⟩ : String) ++ "</p></div>"

/-- `PDFConverter.renderSlideBlock` (lines 122-151). -/
def pdfRenderSlideBlock (title : Option String) (content : Option (List SlideContent)) : String :=
  "<div class=\"slide-block\">" ++
  (if strTruthy title then
    "<h2 class=\"slide-title\">" ++ escapeHtml (title.getD "") ++ "</h2>" else "") ++
  (match content with
   | none => ""
   | some cbs =>
     "<div class=\"slide-content\">" ++
     String.join (cbs.map (fun cb =>
       match cb with
       | .ulist items =>
         "<ul>" ++
         String.join (items.map (fun it => "<li>" ++ escapeHtml (inlineText it) ++ "</li>")) ++
         "</ul>"
       | .slidePara runs => "<p>" ++ escapeHtml (inlineText runs) ++ "</p>"
       | .otherContent _ => "")) ++
     "</div>") ++
  "</div>"

/-- `PDFConverter.renderSheetBlock` (lines 153-199). -/
def pdfRenderSheetBlock (sb : SheetBlock) : String :=
  "<div class=\"sheet-block\">" ++
  (if strTruthy sb.name then
    "<h3 class=\"sheet-title\">" ++ escapeHtml (sb.name.getD "") ++ "</h3>" else "") ++
  "<table class=\"sheet-table\">" ++
  (if colsTruthy sb.cols then
    "<thead><tr>" ++
    String.join (((sb.cols.map colsList).getD []).map
      (fun col => "<th>" ++ escapeHtml col ++ "</th>")) ++
    "</tr></thead>"
   else "") ++
  (match sb.data with
   | none => ""
   | some d =>
     "<tbody>" ++
     String.join ((loopIdxs (maxRowOf d)).map (fun r =>
       "<tr>" ++
       String.join ((loopIdxs (maxColOf d)).map (fun c =>
         "<td>" ++ pdfCellText d r c ++ "</td>")) ++
       "</tr>")) ++
     "</tbody>") ++
  "</table></div>"

/-- The per-block dispatch of `PDFConverter.generateHTML`
(lines 63-78): unknown kinds contribute nothing. -/
def pdfRenderBlock (opts : ConverterOptions) : Block → String
  | .meta props => pdfRenderMetaBlock props opts
  | .doc content => pdfRenderDocBlock content
  | .slide title content => pdfRenderSlideBlock title content
  | .sheet sb => pdfRenderSheetBlock sb
  | .other _ => ""

/-- The body part of `PDFConverter.generateHTML`: the `html += …`
accumulation over the blocks in document order. -/
def pdfGenerateHTMLBody (blocks : List Block) (opts : ConverterOptions) : String :=
  match blocks with
  | [] => ""
  | b :: bs => pdfRenderBlock opts b ++ pdfGenerateHTMLBody bs opts

/-! ## `DOCXConverter` rendering (src/unnamed/part_001)

A `docx` document element is a paragraph (optionally a heading; the model
tracks the heading level as `some 0` = TITLE, `some k` = HEADING_k) or a
table (rows of cells, one single-paragraph run list per cell).  Pure
styling parameters (spacing, size, color, shading) are irrelevant to every
claim and are omitted. -/

/-- A generated `docx` document element. -/
inductive DocxElement where
  | para (heading : Option Nat) (children : List TextRun)
  | table (rows : List (List (List TextRun)))
deriving DecidableEq, Repr

/-- `DOCXConverter.createParagraph` (lines 343-348). -/
def docxCreateParagraph (text : String) : DocxElement :=
  .para none (parseInlineFormatting text)

/-- `DOCXConverter.renderMetaBlock` (lines 83-125). -/
def docxRenderMetaBlock (props : MetaProps) : List DocxElement :=
  (if strTruthy props.title then
    [.para (some 0) [{ text := props.title.getD "", bold := true }]]
   else []) ++
  (let metaInfo :=
    (if strTruthy props.author then ["Author: " ++ props.author.getD ""] else []) ++
    (if strTruthy props.date then ["Date: " ++ props.date.getD ""] else []) ++
    (if strTruthy props.theme then ["Theme: " ++ props.theme.getD ""] else [])
   if metaInfo.length > 0 then
    [.para none [{ text := String.intercalate " | " metaInfo, italics := true }]]
   else [])

/-- Flush the accumulated plain lines of `renderDocBlock` as one paragraph
(`currentParagraph.join(' ')`). -/
def docxFlushPar (cur : List (List Char)) : List DocxElement :=
  if cur = [] then []
  else [docxCreateParagraph (String.intercalate " " (cur.map (fun l => (⟨l⟩ : String))))]

/-- The line loop of `DOCXConverter.renderDocBlock` (lines 135-203), with
the pending-paragraph accumulator threaded through. -/
def docxDocLines : List (List Char) → List (List Char) → List DocxElement
  | [], cur => docxFlushPar cur
  | line :: rest, cur =>
    let t := trimChars line
    if ['#', ' '].isPrefixOf t then
      docxFlushPar cur ++
      [.para (some 1) [{ text := (⟨t.drop 2⟩ : String), bold := true }]] ++
      docxDocLines rest []
    else if ['#', '#', ' '].isPrefixOf t then
      docxFlushPar cur ++
      [.para (some 2) [{ text := (⟨t.drop 3⟩ : String), bold := true }]] ++
      docxDocLines rest []
    else if ['#', '#', '#', ' '].isPrefixOf t then
      docxFlushPar cur ++
      [.para (some 3) [{ text := (⟨t.drop 4⟩ : String), bold := true }]] ++
      docxDocLines rest []
    else if ['-', ' '].isPrefixOf t ∨ ['*', ' '].isPrefixOf t then
      docxFlushPar cur ++
      [.para none ({ text := "• " } :: parseInlineFormatting (⟨t.drop 2⟩ : String))] ++
      docxDocLines rest []
    else if t = [] then
      docxFlushPar cur ++ docxDocLines rest []
    else
      docxDocLines rest (cur ++ [t])

/-- `DOCXConverter.renderDocBlock` (lines 127-211). -/
def docxRenderDocBlock (content : Option String) : List DocxElement :=
  docxDocLines (splitOnCh '\n' (content.getD "").data) []

/-- `DOCXConverter.renderSlideBlock` (lines 213-258). -/
def docxRenderSlideBlock (title : Option String) (content : Option (List SlideContent)) :
    List DocxElement :=
  (if strTruthy title then
    [.para (some 2) [{ text := title.getD "", bold := true }]]
   else []) ++
  ((content.getD []).map (fun cb =>
    match cb with
    | .ulist items =>
      items.map (fun it =>
        DocxElement.para none ({ text := "• " } :: parseInlineFormatting (inlineText it)))
    | .slidePara runs => [docxCreateParagraph (inlineText runs)]
    | .otherContent _ => [])).flatten

/-- `DOCXConverter.renderSheetBlock` (lines 260-341). -/
def docxRenderSheetBlock (sb : SheetBlock) : List DocxElement :=
  (if strTruthy sb.name then
    [.para (some 3) [{ text := sb.name.getD "", bold := true }]]
   else []) ++
  (match sb.data with
   | none => []
   | some d =>
     let tableRows :=
       (if colsTruthy sb.cols then
         [((sb.cols.map colsList).getD []).map
           (fun col => [({ text := col, bold := true } : TextRun)])]
        else []) ++
       (loopIdxs (maxRowOf d)).map (fun r =>
         (loopIdxs (maxColOf d)).map (fun c =>
           [({ text := docxCellText d r c } : TextRun)]))
     if tableRows.length > 0 then [.table tableRows] else [])

/-- The per-block dispatch of `DOCXConverter.generateDocumentElements`
(lines 58-81): the meta block is gated by
`options.includeMetadata !== false`, unknown kinds contribute nothing. -/
def docxBlockElements (opts : ConverterOptions) : Block → List DocxElement
  | .meta props =>
    if opts.includeMetadata = some false then [] else docxRenderMetaBlock props
  | .doc content => docxRenderDocBlock content
  | .slide title content => docxRenderSlideBlock title content
  | .sheet sb => docxRenderSheetBlock sb
  | .other _ => []

/-- `DOCXConverter.generateDocumentElements`. -/
def docxGenerateElements (blocks : List Block) (opts : ConverterOptions) : List DocxElement :=
  (blocks.map (docxBlockElements opts)).flatten

/-! ## `XLSXConverter` worksheet generation (src/src/xlsx.ts)

An ExcelJS worksheet is modelled as its name, the ordered log of cell
writes, and the merged ranges.  Pure styling (fonts, fills, borders, column
widths, tab colors) is irrelevant to every claim and is omitted. -/

/-- A generated worksheet. -/
structure Worksheet where
  name : String
  writes : List CellWrite
  merges : List (Nat × Nat × Nat × Nat) := []
deriving DecidableEq, Repr

/-- `XLSXConverter.sanitizeWorksheetName` (lines 421-426). -/
def sanitizeWorksheetName (s : String) : String :=
  ⟨(s.data.map (fun c =>
      if c = '\\' ∨ c = '/' ∨ c = '*' ∨ c = '?' ∨ c = '[' ∨ c = ']' ∨ c = ':'
      then '_' else c)).take 31⟩

/-- `XLSXConverter.getColumnCount` (lines 384-398), as the JavaScript
number it returns (`NaN` possible through `Math.max` on malformed keys). -/
def getColumnCount (sb : SheetBlock) : JsMax :=
  if colsTruthy sb.cols then .fin (((sb.cols.map colsList).getD []).length : Int)
  else match sb.data with
    | some d => maxColOf d
    | none => .fin 1

/-- The `colCount > 1` comparison guarding the title merge (false for
`NaN` and `-Infinity`, true for `+Infinity`). -/
def jsGtOne : JsMax → Bool
  | .fin n => n > 1
  | .pinf => true
  | _ => false

/-- `XLSXConverter.createSheetWorksheet` (lines 71-138): title cell (merged
across the column count when it exceeds one), header row, data writes from
`populateSheetData`, then formula writes from `applyFormulas`.  (A `NaN`,
`-Infinity` or `+Infinity` column count renders the merge width as 0; only
the first two are reachable without a literal `Infinity` key component, and
both make the guard false so the width is never consulted.) -/
def createSheetWorksheet (sb : SheetBlock) : Worksheet :=
  let titleRow : List CellWrite :=
    if strTruthy sb.name then [⟨1, 1, .str (sb.name.getD "")⟩] else []
  let merges :=
    if strTruthy sb.name ∧ jsGtOne (getColumnCount sb) then
      [(1, 1, 1, (match getColumnCount sb with | .fin n => n.toNat | _ => 0))]
    else []
  let rowAfterTitle := if strTruthy sb.name then 3 else 1
  let headerRow : List CellWrite :=
    if colsTruthy sb.cols then
      ((sb.cols.map colsList).getD []).enum.map
        (fun ic => ⟨rowAfterTitle, ic.1 + 1, .str ic.2⟩)
    else []
  let dataStart := if colsTruthy sb.cols then rowAfterTitle + 1 else rowAfterTitle
  let dataWrites :=
    match sb.data with
    | some d => populateSheetData d dataStart
    | none => []
  let formulaWrites :=
    match sb.formulas with
    | some fs => if fs.length > 0 then applyFormulas fs else []
    | none => []
  { name := sanitizeWorksheetName (if strTruthy sb.name then sb.name.getD "" else "Sheet"),
    writes := titleRow ++ headerRow ++ dataWrites ++ formulaWrites,
    merges := merges }

/-- JavaScript `String.prototype.split('\n\n')` (leftmost, non-overlapping
occurrences of the two-character separator). -/
def splitOnDoubleNl : List Char → List (List Char)
  | '\n' :: '\n' :: rest => [] :: splitOnDoubleNl rest
  | c :: rest =>
    (match splitOnDoubleNl rest with
     | p :: ps => (c :: p) :: ps
     | [] => [[c]])
  | [] => [[]]

/-- The paragraph rows of `XLSXConverter.addDocContentToWorksheet`
(lines 302-312): one write per non-blank paragraph, consecutive rows. -/
def docParagraphWrites : List (List Char) → Nat → List CellWrite
  | [], _ => []
  | p :: ps, row =>
    let t := trimChars p
    if t = [] then docParagraphWrites ps row
    else ⟨row, 1, .str (⟨t⟩ : String)⟩ :: docParagraphWrites ps (row + 1)

/-- `XLSXConverter.addDocContentToWorksheet` (lines 292-315), started at
row 1 as `createContentWorksheet` does. -/
def addDocContentWrites (content : String) : List CellWrite :=
  ⟨1, 1, .str "Document Content"⟩ :: docParagraphWrites (splitOnDoubleNl content.data) 3

/-- The content-block loop of `XLSXConverter.addSlideContentToWorksheet`
(lines 329-346). -/
def slideContentWrites : List SlideContent → Nat → List CellWrite
  | [], _ => []
  | cb :: rest, row =>
    match cb with
    | .ulist items =>
      (items.enum.map (fun iit =>
        (⟨row + iit.1, 1, .str ("• " ++ inlineText iit.2)⟩ : CellWrite))) ++
      slideContentWrites rest (row + items.length)
    | .slidePara runs =>
      ⟨row, 1, .str (inlineText runs)⟩ :: slideContentWrites rest (row + 1)
    | .otherContent _ => slideContentWrites rest row

/-- `XLSXConverter.addSlideContentToWorksheet` (lines 317-349), started at
row 1. -/
def addSlideContentWrites (title : Option String) (content : Option (List SlideContent)) :
    List CellWrite :=
  (if strTruthy title then [⟨1, 1, .str (title.getD "")⟩] else []) ++
  slideContentWrites (content.getD []) (if strTruthy title then 3 else 1)

/-- `XLSXConverter.createContentWorksheet` (lines 140-155). -/
def createContentWorksheet (b : Block) (wsName : String) : Worksheet :=
  { name := wsName,
    writes :=
      match b with
      | .doc content => addDocContentWrites (content.getD "")
      | .slide title content => addSlideContentWrites title content
      | _ => [] }

/-- The stringified first-meta-block metadata `XLSXConverter.getMetadata`
returns (lines 444-456): each property is kept only when truthy. -/
def normProp : Option String → Option String
  | some s => if s = "" then none else some s
  | none => none

/-- `XLSXConverter.getMetadata`. -/
def getMetadata : List Block → MetaProps
  | [] => {}
  | .meta p :: _ => { title := normProp p.title, author := normProp p.author,
                      date := normProp p.date }
  | _ :: bs => getMetadata bs

/-- Collapse every run of `\n` into one space (`.replace(/\n+/g, ' ')`);
the flag records whether the previous character was part of a newline
run. -/
def collapseNlRuns (inRun : Bool) : List Char → List Char
  | [] => []
  | c :: rest =>
    if c = '\n' then
      if inRun then collapseNlRuns true rest else ' ' :: collapseNlRuns true rest
    else c :: collapseNlRuns false rest

/-- `XLSXConverter.getContentPreview` (lines 428-434). -/
def getContentPreview (content : String) : String :=
  let p : String :=
    ⟨trimChars (collapseNlRuns false
      (content.data.filter (fun c => ¬(c = '#' ∨ c = '*' ∨ c = '`'))))⟩
  if p.length > 50 then ⟨p.data.take 47⟩ ++ "..." else p

/-- The `b.type === 'doc' || b.type === 'slide'` filter predicate of
`createSummaryWorksheet` (line 196). -/
def isContentBlock : Block → Bool
  | .doc _ => true
  | .slide _ _ => true
  | _ => false

/-- The per-content-block summary rows of `createSummaryWorksheet`
(lines 209-222). -/
def summaryContentRows : List Block → Nat → List CellWrite
  | [], _ => []
  | b :: bs, row =>
    match b with
    | .slide title _ =>
      ⟨row, 1, .str "SLIDE"⟩ ::
      ⟨row, 2, .str (if strTruthy title then title.getD "" else "Untitled Slide")⟩ ::
      summaryContentRows bs (row + 1)
    | .doc content =>
      ⟨row, 1, .str "DOC"⟩ ::
      ⟨row, 2, .str (getContentPreview (content.getD ""))⟩ ::
      summaryContentRows bs (row + 1)
    | _ => summaryContentRows bs row

/-- `XLSXConverter.createSummaryWorksheet` (lines 157-226). -/
def createSummaryWorksheet (blocks : List Block) : Worksheet :=
  let meta := getMetadata blocks
  let hasMeta := strTruthy meta.title ∨ strTruthy meta.author ∨ strTruthy meta.date
  let metaWrites : List CellWrite :=
    if hasMeta then
      let afterTitleRow := 3
      let titleWrites :=
        if strTruthy meta.title then
          [⟨afterTitleRow, 1, .str "Title:"⟩, ⟨afterTitleRow, 2, .str (meta.title.getD "")⟩]
        else []
      let authorRow := if strTruthy meta.title then afterTitleRow + 1 else afterTitleRow
      let authorWrites :=
        if strTruthy meta.author then
          [⟨authorRow, 1, .str "Author:"⟩, ⟨authorRow, 2, .str (meta.author.getD "")⟩]
        else []
      let dateRow := if strTruthy meta.author then authorRow + 1 else authorRow
      let dateWrites :=
        if strTruthy meta.date then
          [⟨dateRow, 1, .str "Date:"⟩, ⟨dateRow, 2, .str (meta.date.getD "")⟩]
        else []
      (⟨1, 1, .str "Document Information"⟩ : CellWrite) ::
        (titleWrites ++ authorWrites ++ dateWrites)
    else []
  let rowAfterMeta :=
    if hasMeta then
      3 + (if strTruthy meta.title then 1 else 0) + (if strTruthy meta.author then 1 else 0)
        + (if strTruthy meta.date then 1 else 0) + 2
    else 1
  let contentBlocks := blocks.filter isContentBlock
  let contentWrites : List CellWrite :=
    if contentBlocks.length > 0 then
      ⟨rowAfterMeta, 1, .str "Content Summary"⟩ ::
      ⟨rowAfterMeta + 2, 1, .str "Type"⟩ ::
      ⟨rowAfterMeta + 2, 2, .str "Title/Content Preview"⟩ ::
      summaryContentRows contentBlocks (rowAfterMeta + 3)
    else []
  { name := "Summary", writes := metaWrites ++ contentWrites }

/-- The block loop of `XLSXConverter.generateWorksheets` (lines 44-69),
threading the content-worksheet counter and the `hasSheets` flag; returns
the worksheets created by the loop and the final flag. -/
def genWorksheetsAux : List Block → Nat → Bool → (List Worksheet × Bool)
  | [], _, hs => ([], hs)
  | b :: bs, i, hs =>
    match b with
    | .sheet sb =>
      let rest := genWorksheetsAux bs i true
      (createSheetWorksheet sb :: rest.1, rest.2)
    | .doc _ =>
      let rest := genWorksheetsAux bs (i + 1) hs
      (createContentWorksheet b ("Content_" ++ (⟨natDec i⟩ : String)) :: rest.1, rest.2)
    | .slide _ _ =>
      let rest := genWorksheetsAux bs (i + 1) hs
      (createContentWorksheet b ("Content_" ++ (⟨natDec i⟩ : String)) :: rest.1, rest.2)
    | .meta _ => genWorksheetsAux bs i hs
    | .other _ => genWorksheetsAux bs i hs

/-- `XLSXConverter.generateWorksheets`: the loop plus the trailing
summary worksheet when no sheet block was seen. -/
def generateWorksheets (blocks : List Block) : List Worksheet :=
  let res := genWorksheetsAux blocks 1 false
  if ¬ res.2 then res.1 ++ [createSummaryWorksheet blocks] else res.1

/-- The worksheet list of the workbook `XLSXConverter.convert` produces,
including the `workbook.worksheets.length === 0` fallback of lines 20-22. -/
def xlsxWorkbook (blocks : List Block) : List Worksheet :=
  let ws := generateWorksheets blocks
  if ws.length = 0 then [createSummaryWorksheet blocks] else ws

/-! # Theorems

Helper lemmas first, then one theorem per claim (with witnesses and
counterexamples where required). -/

/-! ## Column-letter encoding (claims C4, C10) -/

lemma colLetterAux_fuel : ∀ (f g : Nat) (n : Int), n.toNat ≤ f → n.toNat ≤ g →
    colLetterAux f n = colLetterAux g n := by
  intro f
  induction f with
  | zero =>
    intro g n hf _
    have hn : n ≤ 0 := by omega
    cases g with
    | zero => rfl
    | succ g' => simp [colLetterAux, hn]
  | succ f' ih =>
    intro g n hf hg
    cases g with
    | zero =>
      have hn : n ≤ 0 := by omega
      simp [colLetterAux, hn]
    | succ g' =>
      by_cases hn : n ≤ 0
      · simp [colLetterAux, hn]
      · simp only [colLetterAux, if_neg hn]
        rw [ih g' ((n - 1) / 26) (by omega) (by omega)]

lemma numberToColumnLetter_step (n : Int) (h : 1 ≤ n) :
    (numberToColumnLetter n).data =
      (numberToColumnLetter ((n - 1) / 26)).data ++ [Char.ofNat (65 + ((n - 1) % 26).toNat)] := by
  show colLetterAux n.toNat n = colLetterAux ((n - 1) / 26).toNat ((n - 1) / 26) ++ _
  have h1 : n.toNat = (n.toNat - 1) + 1 := by omega
  rw [h1]
  simp only [colLetterAux, if_neg (by omega : ¬ n ≤ 0)]
  rw [colLetterAux_fuel (n.toNat - 1) ((n - 1) / 26).toNat ((n - 1) / 26) (by omega) (le_refl _)]

lemma colLetterVal_append_singleton (xs : List Char) (c : Char) :
    colLetterVal (xs ++ [c]) = colLetterVal xs * 26 + (c.toNat - 64) := by
  simp [colLetterVal, List.foldl_append]

lemma charval_65 : ∀ r : Nat, r < 26 → (Char.ofNat (65 + r)).toNat = 65 + r := by decide

lemma colLetterVal_encode : ∀ m : Nat, ∀ n : Int, n.toNat = m →
    colLetterVal (numberToColumnLetter n).data = m := by
  intro m
  induction m using Nat.strong_induction_on with
  | _ m ih =>
    intro n hm
    by_cases h1 : 1 ≤ n
    · rw [numberToColumnLetter_step n h1, colLetterVal_append_singleton]
      rw [charval_65 ((n - 1) % 26).toNat (by omega)]
      rw [ih ((n - 1) / 26).toNat (by omega) ((n - 1) / 26) rfl]
      omega
    · have h0 : n.toNat = 0 := by omega
      have hm0 : m = 0 := by omega
      subst hm0
      show colLetterVal (colLetterAux n.toNat n) = 0
      rw [h0]
      rfl

lemma colLetter_chars : ∀ (f : Nat) (n : Int), ∀ ch ∈ colLetterAux f n,
    65 ≤ ch.toNat ∧ ch.toNat ≤ 90 := by
  intro f
  induction f with
  | zero => intro n ch h; simp [colLetterAux] at h
  | succ f' ih =>
    intro n ch h
    by_cases hn : n ≤ 0
    · simp [colLetterAux, hn] at h
    · simp only [colLetterAux, if_neg hn, List.mem_append, List.mem_singleton] at h
      rcases h with h | h
      · exact ih _ ch h
      · subst h
        rw [charval_65 ((n - 1) % 26).toNat (by omega)]
        omega

/-- **C4** (confirmed).  `numberToColumnLetter` realizes the bijective
base-26 column-letter encoding: it maps 1/26/27/52/53 to
"A"/"Z"/"AA"/"AZ"/"BA", the inverse reading `colLetterVal` recovers every
positive input (so the encoding agrees with the bijective base-26
reference), its output uses only the letters `A`–`Z`, and it is injective
on positive integers. -/
theorem claim_C4 (m n : Int) (hm : 1 ≤ m) (hn : 1 ≤ n)
    (heq : numberToColumnLetter m = numberToColumnLetter n) :
    (numberToColumnLetter 1 = "A" ∧ numberToColumnLetter 26 = "Z" ∧
     numberToColumnLetter 27 = "AA" ∧ numberToColumnLetter 52 = "AZ" ∧
     numberToColumnLetter 53 = "BA") ∧
    colLetterVal (numberToColumnLetter m).data = m.toNat ∧
    (∀ ch ∈ (numberToColumnLetter m).data, 65 ≤ ch.toNat ∧ ch.toNat ≤ 90) ∧
    m = n := by
  refine ⟨by decide, colLetterVal_encode m.toNat m rfl, ?_, ?_⟩
  · exact fun ch h => colLetter_chars _ _ ch h
  · have h1 := colLetterVal_encode m.toNat m rfl
    have h2 := colLetterVal_encode n.toNat n rfl
    rw [heq] at h1
    omega

/-- Witness for C4 at the concrete input 28 (= "AB"). -/
theorem claim_C4_witness :
    (numberToColumnLetter 1 = "A" ∧ numberToColumnLetter 26 = "Z" ∧
     numberToColumnLetter 27 = "AA" ∧ numberToColumnLetter 52 = "AZ" ∧
     numberToColumnLetter 53 = "BA") ∧
    colLetterVal (numberToColumnLetter (28 : Int)).data = (28 : Int).toNat ∧
    (∀ ch ∈ (numberToColumnLetter (28 : Int)).data, 65 ≤ ch.toNat ∧ ch.toNat ≤ 90) ∧
    (28 : Int) = 28 :=
  claim_C4 28 28 (by decide) (by decide) rfl

/-- **C10** (confirmed).  `numberToColumnLetter` returns `""` for every
input ≤ 0, and the substitution still matches `"(5,0)"`, rewriting it to
the bare row number `"5"`. -/
theorem claim_C10 (n : Int) (h : n ≤ 0) :
    numberToColumnLetter n = "" ∧ convertToExcelFormula "(5,0)" = "5" := by
  constructor
  · have h0 : n.toNat = 0 := by omega
    show String.mk (colLetterAux n.toNat n) = ""
    rw [h0]
    rfl
  · decide

/-- Witness for C10 at the concrete input `-7`. -/
theorem claim_C10_witness :
    numberToColumnLetter (-7) = "" ∧ convertToExcelFormula "(5,0)" = "5" :=
  claim_C10 (-7) (by decide)

/-! ## Metadata gating (claim C8) -/

/-- **C8** (corrected).  The PDF converter emits metadata only when
`includeMetadata` is truthy (in particular nothing when the option is
absent), but the DOCX converter's gate is `includeMetadata !== false`: it
emits the meta block whenever the option is not explicitly `false`,
including when it is absent. -/
theorem claim_C8 (props : MetaProps) (o1 o2 o3 : ConverterOptions)
    (h1 : boolTruthy o1.includeMetadata = false)
    (h2 : o2.includeMetadata = some false)
    (h3 : o3.includeMetadata ≠ some false) :
    pdfGenerateHTMLBody [Block.meta props] o1 = "" ∧
    docxGenerateElements [Block.meta props] o2 = [] ∧
    docxGenerateElements [Block.meta props] o3 = docxRenderMetaBlock props := by
  refine ⟨?_, ?_, ?_⟩
  · simp [pdfGenerateHTMLBody, pdfRenderBlock, pdfRenderMetaBlock, h1]
  · simp [docxGenerateElements, docxBlockElements, h2]
  · simp [docxGenerateElements, docxBlockElements, h3]

/-- Witness for C8 at concrete options (absent, explicitly false, absent). -/
theorem claim_C8_witness :
    pdfGenerateHTMLBody [Block.meta { title := some "T" }] {} = "" ∧
    docxGenerateElements [Block.meta { title := some "T" }]
      { includeMetadata := some false } = [] ∧
    docxGenerateElements [Block.meta { title := some "T" }] {} =
      docxRenderMetaBlock { title := some "T" } := by
  have h := claim_C8 { title := some "T" } {} { includeMetadata := some false } {}
    (by decide) rfl (by decide)
  exact ⟨h.1, h.2.1, h.2.2⟩

/-- Counterexample to C8 as stated: with the `includeMetadata` option
absent, the DOCX converter still emits the meta block's title. -/
theorem claim_C8_counterexample :
    docxGenerateElements [Block.meta { title := some "T" }] {} =
      [DocxElement.para (some 0) [{ text := "T", bold := true }]] ∧
    [DocxElement.para (some 0) [({ text := "T", bold := true } : TextRun)]] ≠
      ([] : List DocxElement) :=
  ⟨by decide, by decide⟩

/-! ## Tokenizer round trip (claim C1) -/

lemma buildRuns_nil_matches (cs : List Char) :
    buildRuns cs [] 0 = if cs = [] then [] else [{ text := (⟨cs⟩ : String) }] := by
  unfold buildRuns
  cases cs with
  | nil => simp
  | cons c cl => simp [List.drop_zero]

/-- **C1** (corrected).  When no marker rule matches, the tokenizer returns
the whole input as one plain run and concatenation reproduces the input;
as soon as a rule matches, the emitted styled run carries the *inner* text
(`match[1]`), so the markers are dropped and the round trip fails (see the
counterexample). -/
theorem claim_C1 (s : String) (h : collectMatches s.data = []) :
    parseInlineFormatting s = [{ text := s }] ∧
    runsText (parseInlineFormatting s) = s := by
  have hrun : parseInlineFormatting s = [{ text := s }] := by
    have hb : buildRuns s.data (sortMatches (collectMatches s.data)) 0
        = if s.data = [] then [] else [{ text := (⟨s.data⟩ : String) }] := by
      rw [h]
      exact buildRuns_nil_matches s.data
    simp only [parseInlineFormatting]
    rw [hb]
    by_cases hs : s.data = []
    · rw [if_pos hs]
      simp
    · rw [if_neg hs, if_neg (by simp)]
  exact ⟨hrun, by rw [hrun]; rfl⟩

/-- Witness for C1 at a marker-free input. -/
theorem claim_C1_witness :
    parseInlineFormatting "hello world" = [{ text := "hello world" }] ∧
    runsText (parseInlineFormatting "hello world") = "hello world" :=
  claim_C1 "hello world" (by decide)

/-- Counterexample to C1 as stated: tokenizing `"*x*"` yields the single
italic run `"x"`, whose concatenation `"x"` is not the input — the marker
characters are gone. -/
theorem claim_C1_counterexample :
    parseInlineFormatting "*x*" = [{ text := "x", italics := true }] ∧
    runsText (parseInlineFormatting "*x*") = "x" ∧
    ("x" : String) ≠ "*x*" :=
  ⟨by decide, by decide, by decide⟩

/-! ## Candidate sorting (claim C7) -/

/-- The order the sorted candidate list satisfies: strictly earlier start
index, or same start index with rule tags in declaration order. -/
def matchLE (a b : FmtMatch) : Prop :=
  a.index < b.index ∨ (a.index = b.index ∧ a.rule ≤ b.rule)

lemma matchLE_index {a b : FmtMatch} (h : matchLE a b) : a.index ≤ b.index := by
  rcases h with h | ⟨h, _⟩ <;> omega

lemma insertMatch_perm (m : FmtMatch) : ∀ l, (insertMatch m l).Perm (m :: l) := by
  intro l
  induction l with
  | nil => exact .refl _
  | cons x xs ih =>
    rw [insertMatch]
    by_cases hx : x.index < m.index
    · rw [if_pos hx]
      exact (ih.cons x).trans (List.Perm.swap m x xs)
    · rw [if_neg hx]

lemma mem_insertMatch {x m : FmtMatch} {l : List FmtMatch} :
    x ∈ insertMatch m l ↔ x = m ∨ x ∈ l :=
  (insertMatch_perm m l).mem_iff.trans (by simp)

lemma sortMatches_perm : ∀ l, (sortMatches l).Perm l := by
  intro l
  induction l with
  | nil => exact .refl _
  | cons x xs ih =>
    rw [sortMatches]
    exact (insertMatch_perm x _).trans (ih.cons x)

lemma pairwise_insertMatch (m : FmtMatch) (l : List FmtMatch)
    (hl : l.Pairwise matchLE)
    (hm : ∀ b ∈ l, m.index = b.index → m.rule ≤ b.rule) :
    (insertMatch m l).Pairwise matchLE := by
  induction l with
  | nil =>
    rw [insertMatch]
    exact List.Pairwise.cons (fun y hy => by simp at hy) .nil
  | cons x xs ih =>
    rw [insertMatch]
    by_cases hx : x.index < m.index
    · rw [if_pos hx]
      refine List.Pairwise.cons ?_
        (ih hl.tail (fun b hb hidx => hm b (List.mem_cons_of_mem _ hb) hidx))
      intro y hy
      rcases mem_insertMatch.1 hy with rfl | hy'
      · exact Or.inl hx
      · exact (List.pairwise_cons.1 hl).1 y hy'
    · rw [if_neg hx]
      refine List.Pairwise.cons ?_ hl
      intro y hy
      rcases List.mem_cons.1 hy with rfl | hy'
      · rcases Nat.lt_or_ge m.index y.index with hlt | hge
        · exact Or.inl hlt
        · have heq : m.index = y.index := by omega
          exact Or.inr ⟨heq, hm y (List.mem_cons_self _ _) heq⟩
      · have hxy := matchLE_index ((List.pairwise_cons.1 hl).1 y hy')
        rcases Nat.lt_or_ge m.index y.index with hlt | hge
        · exact Or.inl hlt
        · have heq : m.index = y.index := by omega
          exact Or.inr ⟨heq, hm y (List.mem_cons_of_mem _ hy') heq⟩

lemma sortMatches_pairwise : ∀ l : List FmtMatch,
    (l.Pairwise fun a b => a.index = b.index → a.rule ≤ b.rule) →
    (sortMatches l).Pairwise matchLE := by
  intro l
  induction l with
  | nil => intro _; simp [sortMatches]
  | cons x xs ih =>
    intro hl
    rw [sortMatches]
    apply pairwise_insertMatch x (sortMatches xs) (ih hl.tail)
    intro b hb hidx
    exact (List.pairwise_cons.1 hl).1 b ((sortMatches_perm xs).mem_iff.1 hb) hidx

lemma pairwise_of_forall {α : Type} {R : α → α → Prop} (h : ∀ a b, R a b) :
    ∀ l : List α, l.Pairwise R
  | [] => .nil
  | x :: xs => .cons (fun y _ => h x y) (pairwise_of_forall h xs)

lemma collectMatches_rule_pairwise (cs : List Char) :
    (collectMatches cs).Pairwise fun a b => a.index = b.index → a.rule ≤ b.rule := by
  unfold collectMatches
  rw [List.pairwise_append]
  refine ⟨?_, ?_, ?_⟩
  · rw [List.pairwise_append]
    refine ⟨?_, ?_, ?_⟩
    · rw [List.pairwise_map]
      exact pairwise_of_forall (fun a b _ => le_refl _) _
    · rw [List.pairwise_map]
      exact pairwise_of_forall (fun a b _ => le_refl _) _
    · intro a ha b hb
      simp only [List.mem_map] at ha hb
      obtain ⟨a', -, rfl⟩ := ha
      obtain ⟨b', -, rfl⟩ := hb
      intro _
      exact Nat.le_succ 0
  · rw [List.pairwise_map]
    exact pairwise_of_forall (fun a b _ => le_refl _) _
  · intro a ha b hb
    simp only [List.mem_map] at hb
    obtain ⟨b', -, rfl⟩ := hb
    simp only [List.mem_append, List.mem_map] at ha
    intro _
    rcases ha with ⟨a', -, rfl⟩ | ⟨a', -, rfl⟩ <;> simp

/-- **C7** (confirmed).  The sorted candidate list of the tokenizer is a
permutation of the merged per-rule candidate lists, is sorted by start
index ascending, and candidates sharing a start index appear in rule
declaration order (`rule` 0 = bold, 1 = italic, 2 = code), because the
embedding of `Array.prototype.sort` (stable per ECMAScript) preserves the
relative order of ties. -/
theorem claim_C7 (s : String) :
    (sortMatches (collectMatches s.data)).Perm (collectMatches s.data) ∧
    ((sortMatches (collectMatches s.data)).Pairwise fun a b => a.index ≤ b.index) ∧
    ((sortMatches (collectMatches s.data)).Pairwise
      fun a b => a.index = b.index → a.rule ≤ b.rule) := by
  have hp := sortMatches_pairwise (collectMatches s.data) (collectMatches_rule_pairwise s.data)
  refine ⟨sortMatches_perm _, hp.imp matchLE_index, hp.imp ?_⟩
  intro a b h hidx
  rcases h with hlt | ⟨_, hr⟩
  · omega
  · exact hr

/-! ## Formula translation (claim C5) -/

lemma tryCoordAt_length {cs row col rem : List Char}
    (h : tryCoordAt cs = some (row, col, rem)) : rem.length < cs.length := by
  match cs with
  | [] => simp [tryCoordAt] at h
  | ch :: r0 =>
    simp only [tryCoordAt] at h
    split at h <;> try exact Option.noConfusion h
    split at h <;> try exact Option.noConfusion h
    split at h <;> try exact Option.noConfusion h
    rename_i r3x hA
    split at h <;> try exact Option.noConfusion h
    split at h <;> try exact Option.noConfusion h
    rename_i r7x hB
    simp only [Option.some_inj, Prod.mk.injEq] at h
    obtain ⟨rfl, rfl, rfl⟩ := h
    have l1 : (r0.dropWhile isJsSpaceCh).length ≤ r0.length :=
      (List.dropWhile_sublist _).length_le
    have l2 : ((r0.dropWhile isJsSpaceCh).dropWhile isDigitCh).length ≤
        (r0.dropWhile isJsSpaceCh).length :=
      (List.dropWhile_sublist _).length_le
    have l3 := congrArg List.length hA
    have l4 : (r3x.dropWhile isJsSpaceCh).length ≤ r3x.length :=
      (List.dropWhile_sublist _).length_le
    have l5 : ((r3x.dropWhile isJsSpaceCh).dropWhile isDigitCh).length ≤
        (r3x.dropWhile isJsSpaceCh).length :=
      (List.dropWhile_sublist _).length_le
    have l6 : (((r3x.dropWhile isJsSpaceCh).dropWhile isDigitCh).dropWhile isJsSpaceCh).length ≤
        ((r3x.dropWhile isJsSpaceCh).dropWhile isDigitCh).length :=
      (List.dropWhile_sublist _).length_le
    have l7 := congrArg List.length hB
    simp only [List.length_cons] at l3 l7
    simp only [List.length_cons]
    omega

lemma convFormulaAux_fuel : ∀ (f g : Nat) (cs : List Char), cs.length ≤ f → cs.length ≤ g →
    convFormulaAux f cs = convFormulaAux g cs := by
  intro f
  induction f with
  | zero =>
    intro g cs hf _
    have hcs : cs = [] := List.length_eq_zero.1 (by omega)
    subst hcs
    cases g <;> rfl
  | succ f' ih =>
    intro g cs hf hg
    cases cs with
    | nil => cases g <;> rfl
    | cons c rest =>
      cases g with
      | zero => simp at hg
      | succ g' =>
        have hf' : rest.length + 1 ≤ f' + 1 := by simpa using hf
        have hg' : rest.length + 1 ≤ g' + 1 := by simpa using hg
        show convFormulaAux (f' + 1) (c :: rest) = convFormulaAux (g' + 1) (c :: rest)
        simp only [convFormulaAux]
        cases htry : tryCoordAt (c :: rest) with
        | none =>
          simp only [htry]
          rw [ih g' rest (by omega) (by omega)]
        | some v =>
          obtain ⟨row, col, rem⟩ := v
          have hlen := tryCoordAt_length htry
          simp only [List.length_cons] at hlen
          simp only [htry]
          rw [ih g' rem (by omega) (by omega)]

lemma convertChars_cons (c : Char) (rest : List Char) :
    convertToExcelFormulaChars (c :: rest) =
      match tryCoordAt (c :: rest) with
      | some (row, col, rem) =>
        (numberToColumnLetter (parseIntDigits col)).data ++ row ++
          convertToExcelFormulaChars rem
      | none => c :: convertToExcelFormulaChars rest := by
  show convFormulaAux ((c :: rest).length) (c :: rest) = _
  simp only [List.length_cons, convFormulaAux]
  cases htry : tryCoordAt (c :: rest) with
  | none => rfl
  | some v =>
    obtain ⟨row, col, rem⟩ := v
    have hlen := tryCoordAt_length htry
    simp only [List.length_cons] at hlen
    show _ ++ _ ++ convFormulaAux rest.length rem = _ ++ _ ++ convFormulaAux rem.length rem
    rw [convFormulaAux_fuel rest.length rem.length rem (by omega) (le_refl _)]

lemma tryCoordAt_not_lparen {c : Char} (hc : c ≠ '(') (l : List Char) :
    tryCoordAt (c :: l) = none := by
  simp [tryCoordAt, hc]

lemma convertChars_cons_of_ne {c : Char} (hc : c ≠ '(') (rest : List Char) :
    convertToExcelFormulaChars (c :: rest) = c :: convertToExcelFormulaChars rest := by
  rw [convertChars_cons, tryCoordAt_not_lparen hc]

lemma convertChars_append_of_no_lparen (pre : List Char) (h : ∀ c ∈ pre, c ≠ '(')
    (tail : List Char) :
    convertToExcelFormulaChars (pre ++ tail) = pre ++ convertToExcelFormulaChars tail := by
  induction pre with
  | nil => simp
  | cons c p ih =>
    rw [List.cons_append, convertChars_cons_of_ne (h c (List.mem_cons_self _ _)),
      ih (fun x hx => h x (List.mem_cons_of_mem _ hx)), List.cons_append]

lemma digit_not_space {c : Char} (h : isDigitCh c = true) : isJsSpaceCh c = false := by
  by_contra hs
  rw [Bool.not_eq_false] at hs
  simp only [isJsSpaceCh, Bool.or_eq_true, decide_eq_true_eq] at hs
  rcases hs with ((((hc | hc) | hc) | hc) | hc) | hc <;> subst hc <;>
    exact absurd h (by decide)

lemma takeWhile_all_append {p : Char → Bool} : ∀ (xs : List Char), (∀ x ∈ xs, p x = true) →
    ∀ (y : Char), p y = false → ∀ zs,
    (xs ++ y :: zs).takeWhile p = xs ∧ (xs ++ y :: zs).dropWhile p = y :: zs := by
  intro xs
  induction xs with
  | nil =>
    intro _ y hy zs
    simp [List.takeWhile_cons, List.dropWhile_cons, hy]
  | cons x xs' ih =>
    intro hall y hy zs
    have hx : p x = true := hall x (List.mem_cons_self _ _)
    have ih' := ih (fun a ha => hall a (List.mem_cons_of_mem _ ha)) y hy zs
    simp [List.takeWhile_cons, List.dropWhile_cons, hx, ih'.1, ih'.2]

lemma tryCoordAt_exact (row col post : List Char)
    (hrow : row ≠ []) (hrowd : ∀ c ∈ row, isDigitCh c = true)
    (hcol : col ≠ []) (hcold : ∀ c ∈ col, isDigitCh c = true) :
    tryCoordAt ('(' :: (row ++ ',' :: (col ++ ')' :: post))) = some (row, col, post) := by
  obtain ⟨d, row', rfl⟩ := List.exists_cons_of_ne_nil hrow
  obtain ⟨e, col', rfl⟩ := List.exists_cons_of_ne_nil hcol
  have hd : isDigitCh d = true := hrowd d (List.mem_cons_self _ _)
  have he : isDigitCh e = true := hcold e (List.mem_cons_self _ _)
  obtain ⟨hrowTake, hrowDrop⟩ := takeWhile_all_append (d :: row') hrowd ',' (by decide)
    ((e :: col') ++ ')' :: post)
  obtain ⟨hcolTake, hcolDrop⟩ := takeWhile_all_append (e :: col') hcold ')' (by decide) post
  simp only [List.cons_append] at hrowTake hrowDrop hcolTake hcolDrop
  have e1 : List.dropWhile isJsSpaceCh (d :: (row' ++ ',' :: e :: (col' ++ ')' :: post))) =
      d :: (row' ++ ',' :: e :: (col' ++ ')' :: post)) := by
    rw [List.dropWhile_cons, digit_not_space hd]
    simp
  have e4 : List.dropWhile isJsSpaceCh (e :: (col' ++ ')' :: post)) =
      e :: (col' ++ ')' :: post) := by
    rw [List.dropWhile_cons, digit_not_space he]
    simp
  have e7 : List.dropWhile isJsSpaceCh (')' :: post) = ')' :: post := by
    rw [List.dropWhile_cons, (by decide : isJsSpaceCh ')' = false)]
    simp
  simp only [tryCoordAt, List.cons_append, if_true]
  rw [e1, hrowTake, hrowDrop, if_neg (List.cons_ne_nil d row')]
  show (match ',' :: (e :: (col' ++ ')' :: post)) with
    | ',' :: r3 =>
      if (r3.dropWhile isJsSpaceCh).takeWhile isDigitCh = [] then none
      else
        match ((r3.dropWhile isJsSpaceCh).dropWhile isDigitCh).dropWhile isJsSpaceCh with
        | ')' :: r7 => some (d :: row', (r3.dropWhile isJsSpaceCh).takeWhile isDigitCh, r7)
        | _ => none
    | _ => none) = some (d :: row', e :: col', post)
  show (if ((e :: (col' ++ ')' :: post)).dropWhile isJsSpaceCh).takeWhile isDigitCh = []
      then none
      else
        match (((e :: (col' ++ ')' :: post)).dropWhile isJsSpaceCh).dropWhile
            isDigitCh).dropWhile isJsSpaceCh with
        | ')' :: r7 =>
          some (d :: row',
            ((e :: (col' ++ ')' :: post)).dropWhile isJsSpaceCh).takeWhile isDigitCh, r7)
        | _ => none) = some (d :: row', e :: col', post)
  rw [e4, hcolTake, hcolDrop, if_neg (List.cons_ne_nil e col'), e7]
  rfl

/-- **C5** (corrected).  The translator replaces each coordinate-pair match
by the column letters of `parseInt(col)` followed by the row digits
*verbatim* (not re-rendered as a decimal numeral — leading zeros survive,
see the counterexample), leaves all other characters unchanged, and
prepends `=` exactly when the expression does not already start with one;
`"(1,4)"` becomes `"=D1"`. -/
theorem claim_C5 (row col pre post e : List Char)
    (hrow : row ≠ []) (hrowd : ∀ c ∈ row, isDigitCh c = true)
    (hcol : col ≠ []) (hcold : ∀ c ∈ col, isDigitCh c = true)
    (hpre : ∀ c ∈ pre, c ≠ '(')
    (he : ∀ rest, e ≠ '=' :: rest) :
    convertToExcelFormulaChars (pre ++ '(' :: (row ++ ',' :: (col ++ ')' :: post))) =
      pre ++ (numberToColumnLetter (parseIntDigits col)).data ++ row ++
        convertToExcelFormulaChars post ∧
    applyFormulaExprChars e = '=' :: convertToExcelFormulaChars e ∧
    applyFormulaExprChars ('=' :: e) = '=' :: convertToExcelFormulaChars e ∧
    applyFormulaExpr "(1,4)" = "=D1" := by
  refine ⟨?_, ?_, ?_, by decide⟩
  · rw [convertChars_append_of_no_lparen pre hpre, convertChars_cons,
      tryCoordAt_exact row col post hrow hrowd hcol hcold]
    simp [List.append_assoc]
  · have hs : startsWithEq e = false := by
      cases e with
      | nil => rfl
      | cons c r =>
        have hc : c ≠ '=' := fun hcc => he r (by rw [hcc])
        simp [startsWithEq, hc]
    rw [applyFormulaExprChars, hs]
    simp only [Bool.false_eq_true, if_false]
    exact convertChars_cons_of_ne (by decide) e
  · have hs : startsWithEq ('=' :: e) = true := by simp [startsWithEq]
    rw [applyFormulaExprChars, hs]
    simp only [if_true]
    exact convertChars_cons_of_ne (by decide) e

/-- Witness for C5 at the concrete decomposition `"(1,4)"`. -/
theorem claim_C5_witness :
    convertToExcelFormulaChars ([] ++ '(' :: (['1'] ++ ',' :: (['4'] ++ ')' :: []))) =
      [] ++ (numberToColumnLetter (parseIntDigits ['4'])).data ++ ['1'] ++
        convertToExcelFormulaChars [] ∧
    applyFormulaExprChars "(1,4)".data = '=' :: convertToExcelFormulaChars "(1,4)".data ∧
    applyFormulaExprChars ('=' :: "(1,4)".data) =
      '=' :: convertToExcelFormulaChars "(1,4)".data ∧
    applyFormulaExpr "(1,4)" = "=D1" :=
  claim_C5 ['1'] ['4'] [] [] "(1,4)".data (by decide) (by decide) (by decide) (by decide)
    (fun c hc => absurd hc (List.not_mem_nil c)) (by intro rest hcontra; simp at hcontra)

/-- Counterexample to C5 as stated: the row capture `"01"` is copied
verbatim, so `"(01,1)"` is rewritten to `"A01"`, not to the column letters
concatenated with the decimal row number 1 (`"A1"`). -/
theorem claim_C5_counterexample :
    convertToExcelFormula "(01,1)" = "A01" ∧
    numberToColumnLetter 1 ++ "1" = "A1" ∧
    ("A01" : String) ≠ "A1" :=
  ⟨by decide, by decide, by decide⟩

/-! ## Malformed coordinate keys (claim C3) -/

lemma foldl_jsMax_from_nan : ∀ (xs : List JsMax),
    List.foldl jsMaxStep .nan xs = .nan := by
  intro xs
  induction xs with
  | nil => rfl
  | cons x xs ih =>
    show List.foldl jsMaxStep (jsMaxStep .nan x) xs = .nan
    have hstep : jsMaxStep .nan x = .nan := by cases x <;> rfl
    rw [hstep]
    exact ih

lemma foldl_jsMax_nan_of_mem : ∀ (xs : List JsMax) (acc : JsMax), .nan ∈ xs →
    List.foldl jsMaxStep acc xs = .nan := by
  intro xs
  induction xs with
  | nil => intro acc h; simp at h
  | cons x xs ih =>
    intro acc h
    rcases List.mem_cons.1 h with heq | hmem
    · rw [← heq]
      show List.foldl jsMaxStep (jsMaxStep acc .nan) xs = .nan
      have hstep : jsMaxStep acc .nan = .nan := by cases acc <;> rfl
      rw [hstep]
      exact foldl_jsMax_from_nan xs
    · exact ih (jsMaxStep acc x) hmem

lemma jsMaxList_nan_of_mem {xs : List JsMax} (h : .nan ∈ xs) :
    jsMaxList xs = .nan :=
  foldl_jsMax_nan_of_mem xs .ninf h

/-- Counterexample to C3 as stated: adding the malformed key `"foo"` does
not merely skip that entry — the well-formed entry `(1,1) = "x"` stops
being emitted too (the PDF grid loses its whole body). -/
theorem claim_C3_counterexample :
    pdfSheetRows [("1,1", CellScalar.str "x"), ("foo", CellScalar.str "y")] = [] ∧
    pdfSheetRows [("1,1", CellScalar.str "x")] = [["x"]] :=
  ⟨by decide, by decide⟩

/-! ## Canonical keys round-trip (groundwork for claims C6 and C2) -/

lemma digitCh_digit : ∀ n : Nat, n < 10 → isDigitCh (digitCh n) = true := by decide

lemma digitVal_digitCh : ∀ n : Nat, n < 10 → digitVal (digitCh n) = n := by decide

lemma natDecAux_fuel : ∀ (f g n : Nat), n < f → n < g → natDecAux f n = natDecAux g n := by
  intro f
  induction f with
  | zero => intro g n hf; omega
  | succ f' ih =>
    intro g n hf hg
    cases g with
    | zero => omega
    | succ g' =>
      by_cases hn : n < 10
      · simp [natDecAux, hn]
      · simp only [natDecAux, if_neg hn]
        rw [ih g' (n / 10) (by omega) (by omega)]

lemma natDec_digits : ∀ (f n : Nat), ∀ c ∈ natDecAux f n, isDigitCh c = true := by
  intro f
  induction f with
  | zero => intro n c h; simp [natDecAux] at h
  | succ f' ih =>
    intro n c h
    by_cases hn : n < 10
    · simp only [natDecAux, if_pos hn, List.mem_singleton] at h
      subst h
      exact digitCh_digit n hn
    · simp only [natDecAux, if_neg hn, List.mem_append, List.mem_singleton] at h
      rcases h with h | h
      · exact ih _ c h
      · subst h
        exact digitCh_digit (n % 10) (Nat.mod_lt _ (by omega))

lemma natDec_ne_nil (n : Nat) : natDec n ≠ [] := by
  unfold natDec natDecAux
  by_cases hn : n < 10 <;> simp [hn]

lemma parseIntDigits_append_digit (xs : List Char) (c : Char) :
    parseIntDigits (xs ++ [c]) = parseIntDigits xs * 10 + digitVal c := by
  simp [parseIntDigits, List.foldl_append]

lemma parseIntDigits_natDec : ∀ n : Nat, parseIntDigits (natDec n) = n := by
  intro n
  induction n using Nat.strong_induction_on with
  | _ n ih =>
    by_cases hn : n < 10
    · show parseIntDigits (natDecAux (n + 1) n) = n
      simp only [natDecAux, if_pos hn]
      show 0 * 10 + digitVal (digitCh n) = n
      rw [digitVal_digitCh n hn]
      omega
    · show parseIntDigits (natDecAux (n + 1) n) = n
      simp only [natDecAux, if_neg hn]
      rw [natDecAux_fuel n (n / 10 + 1) (n / 10) (by omega) (by omega)]
      rw [parseIntDigits_append_digit]
      rw [show natDecAux (n / 10 + 1) (n / 10) = natDec (n / 10) from rfl]
      rw [ih (n / 10) (by omega)]
      rw [digitVal_digitCh (n % 10) (by omega)]
      omega

lemma dropWhile_eq_self_of_false {p : Char → Bool} (cs : List Char)
    (h : ∀ c ∈ cs, p c = false) : cs.dropWhile p = cs := by
  cases cs with
  | nil => rfl
  | cons c cl =>
    rw [List.dropWhile_cons, h c (List.mem_cons_self _ _)]
    simp

lemma trimChars_of_no_space (cs : List Char) (h : ∀ c ∈ cs, isJsSpaceCh c = false) :
    trimChars cs = cs := by
  unfold trimChars
  rw [dropWhile_eq_self_of_false cs h,
    dropWhile_eq_self_of_false cs.reverse (fun c hc => h c (List.mem_reverse.1 hc)),
    List.reverse_reverse]

lemma takeWhile_eq_self_of_all {p : Char → Bool} (cs : List Char)
    (h : ∀ c ∈ cs, p c = true) : cs.takeWhile p = cs := by
  induction cs with
  | nil => rfl
  | cons c cl ih =>
    rw [List.takeWhile_cons, h c (List.mem_cons_self _ _), if_pos rfl,
      ih (fun x hx => h x (List.mem_cons_of_mem _ hx))]

lemma dropWhile_eq_nil_of_all {p : Char → Bool} (cs : List Char)
    (h : ∀ c ∈ cs, p c = true) : cs.dropWhile p = [] := by
  induction cs with
  | nil => rfl
  | cons c cl ih =>
    rw [List.dropWhile_cons, h c (List.mem_cons_self _ _), if_pos rfl]
    exact ih (fun x hx => h x (List.mem_cons_of_mem _ hx))

lemma jsRadixLit_digits (d : Char) (rest : List Char)
    (hrest : ∀ c ∈ rest, isDigitCh c = true) :
    jsRadixLit (d :: rest) = none := by
  cases rest with
  | nil => rfl
  | cons c1 ds =>
    have h1 : isDigitCh c1 = true := hrest c1 (List.mem_cons_self _ _)
    have hx : ¬(c1 = 'x' ∨ c1 = 'X') := by
      rintro (rfl | rfl) <;> exact absurd h1 (by decide)
    have ho : ¬(c1 = 'o' ∨ c1 = 'O') := by
      rintro (rfl | rfl) <;> exact absurd h1 (by decide)
    have hb : ¬(c1 = 'b' ∨ c1 = 'B') := by
      rintro (rfl | rfl) <;> exact absurd h1 (by decide)
    simp only [jsRadixLit]
    by_cases h0 : d = '0'
    · rw [if_pos h0, if_neg hx, if_neg ho, if_neg hb]
    · rw [if_neg h0]

lemma jsDecOrInf_digits (t : List Char) (hne : t ≠ [])
    (hall : ∀ c ∈ t, isDigitCh c = true) :
    jsDecOrInf false t = .fin (parseIntDigits t : Int) := by
  have hInf : ¬ t = ['I', 'n', 'f', 'i', 'n', 'i', 't', 'y'] := by
    intro hcontra
    subst hcontra
    exact absurd (hall 'I' (List.mem_cons_self _ _)) (by decide)
  have hparse : jsDecParse t = some (parseIntDigits t, 0, 0) := by
    unfold jsDecParse
    rw [takeWhile_eq_self_of_all t hall, dropWhile_eq_nil_of_all t hall]
    show jsDecParse3 t [] [] = _
    unfold jsDecParse3
    rw [if_neg (fun hand => hne hand.1)]
    rw [List.append_nil]
    rfl
  unfold jsDecOrInf
  rw [if_neg hInf, hparse]
  show JsMax.fin (decFloor false (parseIntDigits t) 0 0) = _
  unfold decFloor
  norm_num

lemma jsNumber_natDec (n : Nat) : jsNumber (natDec n) = .fin (n : Int) := by
  have htrim : trimChars (natDec n) = natDec n :=
    trimChars_of_no_space _ (fun c hc => digit_not_space (natDec_digits _ _ c hc))
  obtain ⟨d, rest, hder⟩ := List.exists_cons_of_ne_nil (natDec_ne_nil n)
  have hd : isDigitCh d = true := natDec_digits _ _ d (hder ▸ List.mem_cons_self d rest)
  have hd1 : d ≠ '-' := fun hdd => by subst hdd; exact absurd hd (by decide)
  have hd2 : d ≠ '+' := fun hdd => by subst hdd; exact absurd hd (by decide)
  have hrest : ∀ c ∈ rest, isDigitCh c = true := fun c hc =>
    natDec_digits _ _ c (hder ▸ List.mem_cons_of_mem _ hc)
  have hdec : jsDecOrInf false (d :: rest) = .fin (parseIntDigits (d :: rest) : Int) :=
    jsDecOrInf_digits _ (by simp) (fun c hc => by
      rcases List.mem_cons.1 hc with rfl | hc'
      · exact hd
      · exact hrest c hc')
  unfold jsNumber
  rw [htrim, hder]
  show (if d = '-' then jsDecOrInf true rest
        else if d = '+' then jsDecOrInf false rest
        else match jsRadixLit (d :: rest) with
          | some v => JsMax.fin v
          | none => jsDecOrInf false (d :: rest)) = JsMax.fin (n : Int)
  rw [if_neg hd1, if_neg hd2, jsRadixLit_digits d rest hrest]
  show jsDecOrInf false (d :: rest) = JsMax.fin (n : Int)
  rw [hdec, ← hder, parseIntDigits_natDec]

lemma natDec_no_comma (n : Nat) : ',' ∉ natDec n := fun hmem =>
  absurd (natDec_digits _ _ ',' hmem) (by decide)

lemma splitOnCh_no_sep (ys : List Char) (h : ',' ∉ ys) : splitOnCh ',' ys = [ys] := by
  induction ys with
  | nil => rfl
  | cons c ys' ih =>
    have hc : c ≠ ',' := fun hcc => h (hcc ▸ List.mem_cons_self _ _)
    rw [splitOnCh, if_neg hc, ih (fun hm => h (List.mem_cons_of_mem _ hm))]

lemma splitOnCh_append (xs ys : List Char) (h : ',' ∉ xs) :
    splitOnCh ',' (xs ++ ',' :: ys) = xs :: splitOnCh ',' ys := by
  induction xs with
  | nil =>
    show splitOnCh ',' (',' :: ys) = [] :: splitOnCh ',' ys
    rw [splitOnCh, if_pos rfl]
  | cons c xs' ih =>
    have hc : c ≠ ',' := fun hcc => h (hcc ▸ List.mem_cons_self _ _)
    show splitOnCh ',' (c :: (xs' ++ ',' :: ys)) = (c :: xs') :: splitOnCh ',' ys
    rw [splitOnCh, if_neg hc, ih (fun hm => h (List.mem_cons_of_mem _ hm))]

lemma parsedRC_keyOf (r c : Nat) :
    parsedRC (keyOf r c) = (.fin (r : Int), .fin (c : Int)) := by
  unfold parsedRC
  show (match splitOnComma (natDec r ++ ',' :: natDec c) with
        | p :: _ => jsNumber p
        | [] => .nan,
        match splitOnComma (natDec r ++ ',' :: natDec c) with
        | _ :: q :: _ => jsNumber q
        | _ => .nan) = (.fin (r : Int), .fin (c : Int))
  rw [show splitOnComma (natDec r ++ ',' :: natDec c) =
      splitOnCh ',' (natDec r ++ ',' :: natDec c) from rfl]
  rw [splitOnCh_append _ _ (natDec_no_comma r), splitOnCh_no_sep _ (natDec_no_comma c)]
  show (jsNumber (natDec r), jsNumber (natDec c)) = _
  rw [jsNumber_natDec, jsNumber_natDec]

/-! ## `Math.max` over well-formed keys (claim C6) -/

lemma foldl_jsMax_fin : ∀ (xs : List JsMax) (a : Int),
    (∀ x ∈ xs, ∃ v : Int, x = .fin v) →
    ∃ m : Int, List.foldl jsMaxStep (.fin a) xs = .fin m ∧ a ≤ m ∧
      (m = a ∨ .fin m ∈ xs) ∧ (∀ v : Int, .fin v ∈ xs → v ≤ m) := by
  intro xs
  induction xs with
  | nil =>
    intro a _
    exact ⟨a, rfl, le_refl _, Or.inl rfl, by simp⟩
  | cons x xs ih =>
    intro a hx
    obtain ⟨v, rfl⟩ : ∃ v, x = .fin v := hx x (List.mem_cons_self _ _)
    show ∃ m, List.foldl jsMaxStep (jsMaxStep (.fin a) (.fin v)) xs = .fin m ∧ _
    have hstep : jsMaxStep (.fin a) (.fin v) = .fin (max v a) := rfl
    rw [hstep]
    obtain ⟨m, hm, ham, hor, hub⟩ := ih (max v a) (fun y hy => hx y (List.mem_cons_of_mem _ hy))
    refine ⟨m, hm, le_trans (le_max_right v a) ham, ?_, ?_⟩
    · rcases hor with heq | hmem
      · rcases le_total v a with hva | hav
        · left; rw [heq, max_eq_right hva]
        · right
          rw [heq, max_eq_left hav]
          exact List.mem_cons_self _ _
      · exact Or.inr (List.mem_cons_of_mem _ hmem)
    · intro w hw
      rcases List.mem_cons.1 hw with heq | hmem
      · have hwv : w = v := by injection heq
        subst hwv
        exact le_trans (le_max_left w a) ham
      · exact hub w hmem

lemma jsMaxList_fin {xs : List JsMax} (hne : xs ≠ [])
    (hx : ∀ x ∈ xs, ∃ v : Int, x = .fin v) :
    ∃ m : Int, jsMaxList xs = .fin m ∧ .fin m ∈ xs ∧ (∀ v : Int, .fin v ∈ xs → v ≤ m) := by
  obtain ⟨x, xs', rfl⟩ := List.exists_cons_of_ne_nil hne
  obtain ⟨v, rfl⟩ : ∃ v, x = .fin v := hx x (List.mem_cons_self _ _)
  show ∃ m, List.foldl jsMaxStep (jsMaxStep .ninf (.fin v)) xs' = .fin m ∧ _
  have hstep : jsMaxStep .ninf (.fin v) = .fin v := rfl
  rw [hstep]
  obtain ⟨m, hm, hvm, hor, hub⟩ := foldl_jsMax_fin xs' v
    (fun y hy => hx y (List.mem_cons_of_mem _ hy))
  refine ⟨m, hm, ?_, ?_⟩
  · rcases hor with rfl | hmem
    · exact List.mem_cons_self _ _
    · exact List.mem_cons_of_mem _ hmem
  · intro w hw
    rcases List.mem_cons.1 hw with heq | hmem
    · have : w = v := by injection heq
      subst this
      exact hvm
    · exact hub w hmem

lemma jsMaxList_fin_or_ninf (xs : List JsMax)
    (hx : ∀ x ∈ xs, ∃ v : Int, x = .fin v) :
    (∃ n : Int, jsMaxList xs = .fin n) ∨ jsMaxList xs = .ninf := by
  cases xs with
  | nil => exact Or.inr rfl
  | cons x xs' =>
    obtain ⟨m, hm, -, -⟩ := jsMaxList_fin (by simp) hx
    exact Or.inl ⟨m, hm⟩

lemma mem_loopIdxs {x : Nat} {j : JsMax} :
    x ∈ loopIdxs j ↔ 1 ≤ x ∧ x ≤ (loopIdxs j).length := by
  cases j with
  | fin n =>
    simp only [loopIdxs, List.mem_map, List.mem_range, List.length_map, List.length_range]
    constructor
    · rintro ⟨i, hi, rfl⟩
      omega
    · intro hx
      exact ⟨x - 1, by omega, by omega⟩
  | nan =>
    simp only [loopIdxs, List.length_nil, List.not_mem_nil, false_iff]
    omega
  | ninf =>
    simp only [loopIdxs, List.length_nil, List.not_mem_nil, false_iff]
    omega
  | pinf =>
    simp only [loopIdxs, List.length_nil, List.not_mem_nil, false_iff]
    omega

/-- **C6** (confirmed).  For a non-empty cell map whose keys are canonical
`"r,c"` strings, the materialized grid has exactly `rowCountOf` rows of
`colCountOf` cells each, every key's row/column is bounded by these counts,
and both counts are attained by some present key — i.e. they are the maxima
over present keys.  For the empty cell map both counts are 0 and no data
row (PDF) or cell write (XLSX) is produced, independently of any header
list (the data loops never consult `cols`). -/
theorem claim_C6 (data : CellMap) (startRow : Nat)
    (hkeys : ∀ kv ∈ data, ∃ r c : Nat, kv.1 = keyOf r c)
    (hne : data ≠ []) :
    ((pdfSheetRows data).length = rowCountOf data ∧
      ∀ row ∈ pdfSheetRows data, row.length = colCountOf data) ∧
    (∀ kv ∈ data, ∀ r c : Nat, kv.1 = keyOf r c →
      r ≤ rowCountOf data ∧ c ≤ colCountOf data) ∧
    (∃ kv ∈ data, ∃ c : Nat, kv.1 = keyOf (rowCountOf data) c) ∧
    (∃ kv ∈ data, ∃ r : Nat, kv.1 = keyOf r (colCountOf data)) ∧
    (pdfSheetRows ([] : CellMap) = [] ∧ rowCountOf ([] : CellMap) = 0 ∧
      colCountOf ([] : CellMap) = 0 ∧
      populateSheetData ([] : CellMap) startRow = []) := by
  have hmapRne : data.map (fun kv => (parsedRC kv.1).1) ≠ [] := by
    intro hcontra
    exact hne (List.map_eq_nil_iff.1 hcontra)
  have hmapCne : data.map (fun kv => (parsedRC kv.1).2) ≠ [] := by
    intro hcontra
    exact hne (List.map_eq_nil_iff.1 hcontra)
  have hallR : ∀ x ∈ data.map (fun kv => (parsedRC kv.1).1), ∃ v : Int, x = .fin v := by
    intro x hx
    rw [List.mem_map] at hx
    obtain ⟨kv, hkv, rfl⟩ := hx
    obtain ⟨r, c, hk⟩ := hkeys kv hkv
    rw [hk, parsedRC_keyOf]
    exact ⟨(r : Int), rfl⟩
  have hallC : ∀ x ∈ data.map (fun kv => (parsedRC kv.1).2), ∃ v : Int, x = .fin v := by
    intro x hx
    rw [List.mem_map] at hx
    obtain ⟨kv, hkv, rfl⟩ := hx
    obtain ⟨r, c, hk⟩ := hkeys kv hkv
    rw [hk, parsedRC_keyOf]
    exact ⟨(c : Int), rfl⟩
  obtain ⟨mR, hmR, hmemR, hubR⟩ := jsMaxList_fin hmapRne hallR
  obtain ⟨mC, hmC, hmemC, hubC⟩ := jsMaxList_fin hmapCne hallC
  have hmaxR : maxRowOf data = .fin mR := hmR
  have hmaxC : maxColOf data = .fin mC := hmC
  have hRC : rowCountOf data = mR.toNat := by
    rw [rowCountOf, hmaxR]
    simp [loopIdxs]
  have hCC : colCountOf data = mC.toNat := by
    rw [colCountOf, hmaxC]
    simp [loopIdxs]
  obtain ⟨kvR, hkvR, heqR⟩ := List.mem_map.1 hmemR
  obtain ⟨rR, cR, hkR⟩ := hkeys kvR hkvR
  rw [hkR, parsedRC_keyOf] at heqR
  have hmRr : mR = (rR : Int) := by
    have h1 : JsMax.fin ((rR : Int)) = JsMax.fin mR := heqR
    injection h1 with h2
    exact h2.symm
  obtain ⟨kvC, hkvC, heqC⟩ := List.mem_map.1 hmemC
  obtain ⟨rC, cC, hkC⟩ := hkeys kvC hkvC
  rw [hkC, parsedRC_keyOf] at heqC
  have hmCc : mC = (cC : Int) := by
    have h1 : JsMax.fin ((cC : Int)) = JsMax.fin mC := heqC
    injection h1 with h2
    exact h2.symm
  refine ⟨⟨?_, ?_⟩, ?_, ?_, ?_, by decide, by decide, by decide, rfl⟩
  · simp [pdfSheetRows, rowCountOf]
  · intro row hrow
    rw [pdfSheetRows, List.mem_map] at hrow
    obtain ⟨a, -, rfl⟩ := hrow
    simp [colCountOf]
  · intro kv hkv r c hk
    have hrmem : JsMax.fin (r : Int) ∈ data.map (fun kv => (parsedRC kv.1).1) :=
      List.mem_map.2 ⟨kv, hkv, by rw [hk, parsedRC_keyOf]⟩
    have hcmem : JsMax.fin (c : Int) ∈ data.map (fun kv => (parsedRC kv.1).2) :=
      List.mem_map.2 ⟨kv, hkv, by rw [hk, parsedRC_keyOf]⟩
    have h1 := hubR _ hrmem
    have h2 := hubC _ hcmem
    rw [hRC, hCC]
    omega
  · refine ⟨kvR, hkvR, cR, ?_⟩
    rw [hRC, hmRr]
    simpa using hkR
  · refine ⟨kvC, hkvC, rC, ?_⟩
    rw [hCC, hmCc]
    simpa using hkC

lemma getElem?_loopIdxs_fin {n : Int} {i : Nat} (h : i < n.toNat) :
    (loopIdxs (.fin n))[i]? = some (i + 1) := by
  simp [loopIdxs, List.getElem?_map, List.getElem?_range h]

/-- In-bounds characterization of the XLSX populator's writes on the row
`startRow + r - 1`, column `c`: shared by claims C2 and C3. -/
lemma populate_write_iff (data : CellMap) (r c startRow : Nat)
    (hr : 1 ≤ r) (hrle : r ≤ rowCountOf data)
    (hc : 1 ≤ c) (hcle : c ≤ colCountOf data) (w : CellWrite) :
    (w ∈ populateSheetData data startRow ∧ w.row = startRow + r - 1 ∧ w.col = c) ↔
    (∃ v, cellLookup data (keyOf r c) = some v ∧
      w = ⟨startRow + r - 1, c, xlsxValOf v⟩) := by
  have hrmem : r ∈ loopIdxs (maxRowOf data) := mem_loopIdxs.2 ⟨hr, hrle⟩
  have hcmem : c ∈ loopIdxs (maxColOf data) := mem_loopIdxs.2 ⟨hc, hcle⟩
  constructor
  · rintro ⟨hmem, hwr, hwc⟩
    rw [populateSheetData, List.mem_flatten] at hmem
    obtain ⟨L, hL, hwL⟩ := hmem
    rw [List.mem_map] at hL
    obtain ⟨r', hr', rfl⟩ := hL
    rw [List.mem_filterMap] at hwL
    obtain ⟨c', hc', hfc⟩ := hwL
    cases hlook : cellLookup data (keyOf r' c') with
    | none => rw [hlook] at hfc; simp at hfc
    | some v =>
      rw [hlook] at hfc
      simp only [Option.some_inj] at hfc
      subst hfc
      have hr'1 : 1 ≤ r' := (mem_loopIdxs.1 hr').1
      have hwr' : startRow + r' - 1 = startRow + r - 1 := hwr
      have hwc' : c' = c := hwc
      have hreq : r' = r := by omega
      subst hreq
      subst hwc'
      exact ⟨v, hlook, rfl⟩
  · rintro ⟨v, hv, rfl⟩
    refine ⟨?_, rfl, rfl⟩
    rw [populateSheetData, List.mem_flatten]
    refine ⟨(loopIdxs (maxColOf data)).filterMap (fun c' =>
      match cellLookup data (keyOf r c') with
      | some v => some ⟨startRow + r - 1, c', xlsxValOf v⟩
      | none => none), List.mem_map.2 ⟨r, hrmem, rfl⟩, ?_⟩
    rw [List.mem_filterMap]
    exact ⟨c, hcmem, by rw [hv]⟩

/-- In-bounds value of the PDF grid's cell `(r, c)`: shared by claims C2
and C3. -/
lemma pdfCell_getD (data : CellMap) (r c : Nat)
    (hr : 1 ≤ r) (hrle : r ≤ rowCountOf data)
    (hc : 1 ≤ c) (hcle : c ≤ colCountOf data) :
    List.getD (List.getD (pdfSheetRows data) (r - 1) []) (c - 1) "" =
      escapeHtml (jsStringOfScalar (cellOrEmpty (cellLookup data (keyOf r c)))) := by
  match hM : maxRowOf data with
  | .ninf =>
    exfalso
    rw [rowCountOf, hM] at hrle
    simp [loopIdxs] at hrle
    omega
  | .nan =>
    exfalso
    rw [rowCountOf, hM] at hrle
    simp [loopIdxs] at hrle
    omega
  | .pinf =>
    exfalso
    rw [rowCountOf, hM] at hrle
    simp [loopIdxs] at hrle
    omega
  | .fin n =>
    match hMC : maxColOf data with
    | .ninf =>
      exfalso
      rw [colCountOf, hMC] at hcle
      simp [loopIdxs] at hcle
      omega
    | .nan =>
      exfalso
      rw [colCountOf, hMC] at hcle
      simp [loopIdxs] at hcle
      omega
    | .pinf =>
      exfalso
      rw [colCountOf, hMC] at hcle
      simp [loopIdxs] at hcle
      omega
    | .fin m =>
      have hrn : r - 1 < n.toNat := by
        rw [rowCountOf, hM] at hrle
        simp [loopIdxs] at hrle
        omega
      have hcm : c - 1 < m.toNat := by
        rw [colCountOf, hMC] at hcle
        simp [loopIdxs] at hcle
        omega
      have hradd : r - 1 + 1 = r := by omega
      have hcadd : c - 1 + 1 = c := by omega
      have hrowq : (pdfSheetRows data)[r - 1]? =
          some ((loopIdxs (maxColOf data)).map (fun c' => pdfCellText data r c')) := by
        rw [pdfSheetRows, hM, List.getElem?_map, getElem?_loopIdxs_fin hrn]
        simp only [Option.map_some', hradd]
      have hcellq : ((loopIdxs (maxColOf data)).map
          (fun c' => pdfCellText data r c'))[c - 1]? = some (pdfCellText data r c) := by
        rw [hMC, List.getElem?_map, getElem?_loopIdxs_fin hcm]
        simp only [Option.map_some', hcadd]
      rw [List.getD_eq_getElem?_getD, List.getD_eq_getElem?_getD, hrowq,
        Option.getD_some, hcellq, Option.getD_some]
      rfl

/-- **C2** (corrected).  For in-bounds `(r, c)`: the XLSX populator writes
the type-preserved stored value at worksheet cell `(startRow + r - 1, c)`
exactly when the key `"r,c"` is present (an absent key produces no write —
the cell stays empty); the PDF renderer instead emits
`escapeHtml(String(data[key] || ''))`, which replaces any *falsy* stored
value (the number 0, `false`, the empty string) by the empty string (see
the counterexample) and stringifies the rest. -/
theorem claim_C2 (data : CellMap) (r c startRow : Nat)
    (hr : 1 ≤ r) (hrle : r ≤ rowCountOf data)
    (hc : 1 ≤ c) (hcle : c ≤ colCountOf data) :
    (∀ w : CellWrite,
      (w ∈ populateSheetData data startRow ∧ w.row = startRow + r - 1 ∧ w.col = c) ↔
      (∃ v, cellLookup data (keyOf r c) = some v ∧
        w = ⟨startRow + r - 1, c, xlsxValOf v⟩)) ∧
    List.getD (List.getD (pdfSheetRows data) (r - 1) []) (c - 1) "" =
      escapeHtml (jsStringOfScalar (cellOrEmpty (cellLookup data (keyOf r c)))) :=
  ⟨fun w => populate_write_iff data r c startRow hr hrle hc hcle w,
   pdfCell_getD data r c hr hrle hc hcle⟩

/-- Witness for C2 at a concrete one-entry cell map, `(r, c) = (1, 2)`. -/
theorem claim_C2_witness :
    List.getD (List.getD (pdfSheetRows [("1,2", CellScalar.num 5)]) 0 []) 1 "" =
      escapeHtml (jsStringOfScalar (cellOrEmpty
        (cellLookup [("1,2", CellScalar.num 5)] (keyOf 1 2)))) :=
  (claim_C2 [("1,2", CellScalar.num 5)] 1 2 4
    (by decide) (by decide) (by decide) (by decide)).2

/-- Counterexample to C2 as stated: the key `"1,1"` is present with the
numeric value 0, yet the PDF renderer's cell is the empty string, not the
(numeric) stored value. -/
theorem claim_C2_counterexample :
    pdfSheetRows [("1,1", CellScalar.num 0)] = [[""]] ∧
    cellLookup [("1,1", CellScalar.num 0)] (keyOf 1 1) = some (CellScalar.num 0) ∧
    jsStringOfScalar (CellScalar.num 0) = "0" ∧
    ("" : String) ≠ "0" :=
  ⟨by decide, by decide, by decide, by decide⟩

lemma find?_filter_ne (k0 k : String) (hne : k ≠ k0) : ∀ (data : CellMap),
    List.find? (fun kv => kv.1 = k) (data.filter (fun kv => kv.1 ≠ k0)) =
      List.find? (fun kv => kv.1 = k) data := by
  intro data
  induction data with
  | nil => rfl
  | cons kv rest ih =>
    by_cases h0 : kv.1 = k0
    · have hfc : (kv :: rest).filter (fun kv => kv.1 ≠ k0) =
          rest.filter (fun kv => kv.1 ≠ k0) := by
        rw [List.filter_cons]
        simp [h0]
      have hkne : ¬ kv.1 = k := fun hk => hne (hk.symm.trans h0)
      have hfind : List.find? (fun kv => kv.1 = k) (kv :: rest) =
          List.find? (fun kv => kv.1 = k) rest := by
        rw [List.find?_cons]
        simp [hkne]
      rw [hfc, hfind, ih]
    · have hfc : (kv :: rest).filter (fun kv => kv.1 ≠ k0) =
          kv :: rest.filter (fun kv => kv.1 ≠ k0) := by
        rw [List.filter_cons]
        simp [h0]
      rw [hfc]
      by_cases hk : kv.1 = k
      · have h1 : List.find? (fun kv => kv.1 = k)
            (kv :: rest.filter (fun kv => kv.1 ≠ k0)) = some kv := by
          rw [List.find?_cons]
          simp [hk]
        have h2 : List.find? (fun kv => kv.1 = k) (kv :: rest) = some kv := by
          rw [List.find?_cons]
          simp [hk]
        rw [h1, h2]
      · have h1 : List.find? (fun kv => kv.1 = k)
            (kv :: rest.filter (fun kv => kv.1 ≠ k0)) =
            List.find? (fun kv => kv.1 = k) (rest.filter (fun kv => kv.1 ≠ k0)) := by
          rw [List.find?_cons]
          simp [hk]
        have h2 : List.find? (fun kv => kv.1 = k) (kv :: rest) =
            List.find? (fun kv => kv.1 = k) rest := by
          rw [List.find?_cons]
          simp [hk]
        rw [h1, h2, ih]

/-- Removing every entry carrying a given key string changes no lookup at a
different key. -/
lemma cellLookup_filter_ne (data : CellMap) (k0 k : String) (hne : k ≠ k0) :
    cellLookup data k = cellLookup (data.filter (fun kv => kv.1 ≠ k0)) k := by
  unfold cellLookup
  rw [find?_filter_ne k0 k hne]

/-- **C3** (corrected).  What happens to a malformed coordinate key depends
on how `Number()` parses its components.  A key with a component parsing to
`NaN` (e.g. `"foo"`, in `dataN`) is *not* skipped locally: the `NaN`
poisons `Math.max`, the affected dimension's loop never runs, and no cell
value of that sheet's body is emitted at all (no PDF rows, or rows with no
cells; no XLSX write) — though no exception is raised and blocks other
than the sheet are unaffected (see `claim_C9`'s dispatch equalities).  A
malformed key `k0` whose components still parse to finite numbers (e.g.
`"0,5"`, outside the claimed positive range; `dataF` with `hfin`) is
skipped in the claimed local sense: both dimension maxima stay finite (or
`-Infinity` for the empty map), no probed lookup `"r,c"` with `r, c ≥ 1`
can select such an entry (removing all entries with that key changes no
probed lookup), and every well-formed entry is still emitted at its
in-bounds coordinate — the malformed key participates only in the
`Math.max` dimension inference. -/
theorem claim_C3 (dataN dataF : CellMap) (k0 : String) (startRow r c : Nat)
    (hnan : ∃ kv ∈ dataN, (parsedRC kv.1).1 = .nan ∨ (parsedRC kv.1).2 = .nan)
    (hfin : ∀ kv ∈ dataF, ∃ a b : Int, parsedRC kv.1 = (.fin a, .fin b))
    (hmal : ∀ r' c' : Nat, 1 ≤ r' → 1 ≤ c' → k0 ≠ keyOf r' c')
    (hr : 1 ≤ r) (hrle : r ≤ rowCountOf dataF)
    (hc : 1 ≤ c) (hcle : c ≤ colCountOf dataF) :
    ((∀ row ∈ pdfSheetRows dataN, row = []) ∧
      populateSheetData dataN startRow = []) ∧
    ((∃ n : Int, maxRowOf dataF = .fin n) ∨ maxRowOf dataF = .ninf) ∧
    ((∃ n : Int, maxColOf dataF = .fin n) ∨ maxColOf dataF = .ninf) ∧
    (∀ r' c' : Nat, 1 ≤ r' → 1 ≤ c' →
      cellLookup dataF (keyOf r' c') =
        cellLookup (dataF.filter (fun kv => kv.1 ≠ k0)) (keyOf r' c')) ∧
    (List.getD (List.getD (pdfSheetRows dataF) (r - 1) []) (c - 1) "" =
      escapeHtml (jsStringOfScalar (cellOrEmpty (cellLookup dataF (keyOf r c)))) ∧
     ∀ w : CellWrite,
       (w ∈ populateSheetData dataF startRow ∧ w.row = startRow + r - 1 ∧ w.col = c) ↔
       (∃ v, cellLookup dataF (keyOf r c) = some v ∧
         w = ⟨startRow + r - 1, c, xlsxValOf v⟩)) := by
  refine ⟨?_, ?_, ?_, ?_, pdfCell_getD dataF r c hr hrle hc hcle,
    fun w => populate_write_iff dataF r c startRow hr hrle hc hcle w⟩
  · obtain ⟨kv, hkv, hcase⟩ := hnan
    rcases hcase with hcomp | hcomp
    · have hR : maxRowOf dataN = .nan :=
        jsMaxList_nan_of_mem (List.mem_map.2 ⟨kv, hkv, hcomp⟩)
      constructor
      · intro row hrow
        simp [pdfSheetRows, hR, loopIdxs] at hrow
      · simp [populateSheetData, hR, loopIdxs]
    · have hC : maxColOf dataN = .nan :=
        jsMaxList_nan_of_mem (List.mem_map.2 ⟨kv, hkv, hcomp⟩)
      constructor
      · intro row hrow
        simp only [pdfSheetRows, hC] at hrow
        rw [List.mem_map] at hrow
        obtain ⟨a, -, hrow⟩ := hrow
        simp only [loopIdxs, List.map_nil] at hrow
        exact hrow.symm
      · simp [populateSheetData, hC, loopIdxs]
  · refine jsMaxList_fin_or_ninf _ (fun x hx => ?_)
    rw [List.mem_map] at hx
    obtain ⟨kv, hkv, rfl⟩ := hx
    obtain ⟨a, b, hab⟩ := hfin kv hkv
    exact ⟨a, by rw [hab]⟩
  · refine jsMaxList_fin_or_ninf _ (fun x hx => ?_)
    rw [List.mem_map] at hx
    obtain ⟨kv, hkv, rfl⟩ := hx
    obtain ⟨a, b, hab⟩ := hfin kv hkv
    exact ⟨b, by rw [hab]⟩
  · intro r' c' h1 h2
    exact cellLookup_filter_ne dataF k0 (keyOf r' c')
      (fun h => hmal r' c' h1 h2 h.symm)

/-- Witness for C3: the `NaN`-keyed map `{"1,1": "x", "foo": "y"}` produces
no XLSX write, while in the finite-malformed map `{"0,5": "m", "1,1": "y"}`
the entry `"0,5"` is invisible to the probed lookup `(1,1)` and the cell
`(1,1)` of the PDF grid still carries `"y"`. -/
theorem claim_C3_witness :
    populateSheetData [("1,1", CellScalar.str "x"), ("foo", CellScalar.str "y")] 1 = [] ∧
    cellLookup [("0,5", CellScalar.str "m"), ("1,1", CellScalar.str "y")] (keyOf 1 1) =
      cellLookup (([("0,5", CellScalar.str "m"), ("1,1", CellScalar.str "y")] :
        CellMap).filter (fun kv => kv.1 ≠ "0,5")) (keyOf 1 1) ∧
    List.getD (List.getD (pdfSheetRows
      [("0,5", CellScalar.str "m"), ("1,1", CellScalar.str "y")]) 0 []) 0 "" =
      escapeHtml (jsStringOfScalar (cellOrEmpty (cellLookup
        [("0,5", CellScalar.str "m"), ("1,1", CellScalar.str "y")] (keyOf 1 1)))) := by
  have hfin : ∀ kv ∈ ([("0,5", CellScalar.str "m"), ("1,1", CellScalar.str "y")] : CellMap),
      ∃ a b : Int, parsedRC kv.1 = (.fin a, .fin b) := by
    intro kv hkv
    rcases List.mem_cons.1 hkv with rfl | hkv'
    · exact ⟨0, 5, by decide⟩
    · rcases List.mem_cons.1 hkv' with rfl | habs
      · exact ⟨1, 1, by decide⟩
      · simp at habs
  have hmal : ∀ r' c' : Nat, 1 ≤ r' → 1 ≤ c' → ("0,5" : String) ≠ keyOf r' c' := by
    intro r' c' h1 h2 heq
    have hpk := parsedRC_keyOf r' c'
    rw [← heq] at hpk
    have h05 : parsedRC "0,5" = (JsMax.fin 0, JsMax.fin 5) := by decide
    rw [h05] at hpk
    have hfst : JsMax.fin (0 : Int) = JsMax.fin ((r' : Int)) := congrArg Prod.fst hpk
    injection hfst with hv
    omega
  have h := claim_C3 [("1,1", CellScalar.str "x"), ("foo", CellScalar.str "y")]
      [("0,5", CellScalar.str "m"), ("1,1", CellScalar.str "y")] "0,5" 1 1 1
      ⟨("foo", CellScalar.str "y"), by decide, Or.inl (by decide)⟩
      hfin hmal (by decide) (by decide) (by decide) (by decide)
  exact ⟨h.1.2, h.2.2.2.1 1 1 (by decide) (by decide), h.2.2.2.2.1⟩

/-! ## Unknown block kinds (claim C9) -/

lemma pdfBody_other (k : String) (opts : ConverterOptions) :
    ∀ (pre post : List Block),
    pdfGenerateHTMLBody (pre ++ Block.other k :: post) opts =
      pdfGenerateHTMLBody (pre ++ post) opts := by
  intro pre
  induction pre with
  | nil => intro post; rfl
  | cons b pre' ih =>
    intro post
    show pdfRenderBlock opts b ++ pdfGenerateHTMLBody (pre' ++ Block.other k :: post) opts =
      pdfRenderBlock opts b ++ pdfGenerateHTMLBody (pre' ++ post) opts
    rw [ih]

lemma docxElements_other (k : String) (opts : ConverterOptions) (pre post : List Block) :
    docxGenerateElements (pre ++ Block.other k :: post) opts =
      docxGenerateElements (pre ++ post) opts := by
  simp [docxGenerateElements, List.map_append, docxBlockElements]

lemma genWsAux_other (k : String) : ∀ (pre post : List Block) (i : Nat) (hs : Bool),
    genWorksheetsAux (pre ++ Block.other k :: post) i hs =
      genWorksheetsAux (pre ++ post) i hs := by
  intro pre
  induction pre with
  | nil => intro post i hs; rfl
  | cons b pre' ih =>
    intro post i hs
    cases b <;> simp only [List.cons_append, genWorksheetsAux, List.append_eq] <;> rw [ih]

lemma getMetadata_other (k : String) : ∀ (pre post : List Block),
    getMetadata (pre ++ Block.other k :: post) = getMetadata (pre ++ post) := by
  intro pre
  induction pre with
  | nil => intro post; rfl
  | cons b pre' ih =>
    intro post
    cases b <;> simp only [List.cons_append, getMetadata, List.append_eq] <;> try rw [ih]

lemma filter_content_other (k : String) (pre post : List Block) :
    (pre ++ Block.other k :: post).filter isContentBlock =
      (pre ++ post).filter isContentBlock := by
  simp [List.filter_append, List.filter_cons, isContentBlock]

lemma createSummary_other (k : String) (pre post : List Block) :
    createSummaryWorksheet (pre ++ Block.other k :: post) =
      createSummaryWorksheet (pre ++ post) := by
  unfold createSummaryWorksheet
  rw [getMetadata_other, filter_content_other]

/-- **C9** (confirmed).  A block of unknown kind contributes nothing to any
dispatcher: the PDF HTML body, the DOCX element list and the XLSX workbook
produced for a document containing it equal the ones produced for the
document with that block removed (no error is raised — every function is
total). -/
theorem claim_C9 (pre post : List Block) (k : String) (opts : ConverterOptions) :
    pdfGenerateHTMLBody (pre ++ Block.other k :: post) opts =
      pdfGenerateHTMLBody (pre ++ post) opts ∧
    docxGenerateElements (pre ++ Block.other k :: post) opts =
      docxGenerateElements (pre ++ post) opts ∧
    xlsxWorkbook (pre ++ Block.other k :: post) = xlsxWorkbook (pre ++ post) := by
  refine ⟨pdfBody_other k opts pre post, docxElements_other k opts pre post, ?_⟩
  unfold xlsxWorkbook generateWorksheets
  rw [genWsAux_other, createSummary_other]

/-- Witness for C6 at a concrete two-entry cell map. -/
theorem claim_C6_witness :
    (pdfSheetRows [("2,1", CellScalar.str "a"), ("1,3", CellScalar.num 2)]).length =
      rowCountOf [("2,1", CellScalar.str "a"), ("1,3", CellScalar.num 2)] :=
  (claim_C6 [("2,1", CellScalar.str "a"), ("1,3", CellScalar.num 2)] 1
    (by
      intro kv hkv
      rcases List.mem_cons.1 hkv with rfl | hkv'
      · exact ⟨2, 1, by decide⟩
      · rcases List.mem_cons.1 hkv' with rfl | habs
        · exact ⟨1, 3, by decide⟩
        · simp at habs)
    (by decide)).1.1

end OSF






